import Mathlib

/-!
# bke_test: cluster life-cycle acceptance test (`main.go`)

A shallow embedding of the pure parts of `main.go` and of the polling loops
that drive the scale-down / scale-up tests.

Conventions of the embedding.

* A Go `string` is a Lean `String`; `strings.Contains` is the infix relation on
  the underlying character lists.
* The Kubernetes API objects are records holding exactly the fields the
  program reads.
* I/O that fails makes the program call `os.Exit(1)`; the embedding follows the
  path on which every I/O operation succeeds.
-/

namespace BkeTest

/-! ## Strings and formatting -/

/-- Go `strings.Contains(s, substr)`. -/
def stringsContains (s substr : String) : Bool :=
  decide (substr.data <:+: s.data)

/-- Go `strings.HasPrefix(s, prefix)`. -/
def stringsHasPrefix (s pre : String) : Bool :=
  decide (pre.data <+: s.data)

/-- Go `strings.TrimPrefix(s, prefix)`. -/
def stringsTrimPrefix (s pre : String) : String :=
  if stringsHasPrefix s pre then String.mk (s.data.drop pre.data.length) else s

/-- Replacement of the leftmost occurrence of `old` by `new` in a list of
characters; the text is returned unchanged when `old` does not occur. -/
def replaceFirst (old new : List Char) : List Char → List Char
  | [] => if old = [] then new else []
  | c :: cs =>
    if old <+: c :: cs then new ++ (c :: cs).drop old.length
    else c :: replaceFirst old new cs

/-- Go `strings.Replace(s, old, new, 1)`. -/
def stringsReplaceOne (s old new : String) : String :=
  String.mk (replaceFirst old.data new.data s.data)

/-- The verb `%-Ns` of `fmt.Sprintf`: the text, then blanks up to `w` runes.
A text of `w` runes or more is printed unchanged. -/
def padRight (w : Nat) (s : String) : String :=
  s ++ String.mk (List.replicate (w - s.length) ' ')

/-! ## binary64 arithmetic and `formatAge` (lines 198-204)

`time.Duration` is an `int64` count of nanoseconds.  `Duration.Hours` and
`Duration.Minutes` of Go's `time` package compute in `float64`:

    hour := d / Hour;  nsec := d % Hour
    return float64(hour) + float64(nsec)/(60*60*1e9)

A `float64` is represented by the rational number it denotes, and every
operation rounds the exact result to the nearest binary64 value, ties to
even.  Only values of magnitude `0` or between `2^-1022` and `2^1024` occur
here, so subnormal numbers and overflow are left out. -/

/-- Rounding of a rational to the nearest integer, ties to the even one. -/
def roundHalfEven (q : ℚ) : ℤ :=
  if q - ⌊q⌋ < 1 / 2 then ⌊q⌋
  else if 1 / 2 < q - ⌊q⌋ then ⌊q⌋ + 1
  else if ⌊q⌋ % 2 = 0 then ⌊q⌋ else ⌊q⌋ + 1

/-- The binary64 value nearest to a positive rational `x`: with
`e = ⌊log₂ x⌋` the unit in the last place is `2 ^ (e - 52)`, and `x` is rounded
to a whole number of units. -/
def roundPos (x : ℚ) : ℚ :=
  roundHalfEven (x / 2 ^ (Int.log 2 x - 52)) * 2 ^ (Int.log 2 x - 52)

/-- Rounding to binary64, round-to-nearest-even, symmetric in the sign. -/
def roundBinary64 (x : ℚ) : ℚ :=
  if 0 < x then roundPos x else if x < 0 then -roundPos (-x) else 0

/-- The conversion `float64(n)` of an integer. -/
def f64OfInt (n : ℤ) : ℚ := roundBinary64 n

/-- The `float64` sum `x + y`. -/
def f64Add (x y : ℚ) : ℚ := roundBinary64 (x + y)

/-- The `float64` quotient `x / y`. -/
def f64Div (x y : ℚ) : ℚ := roundBinary64 (x / y)

/-- The conversion `int(x)` of a `float64`: truncation toward zero. -/
def truncToInt (x : ℚ) : ℤ := if 0 ≤ x then ⌊x⌋ else ⌈x⌉

/-- Go `math.Mod(x, y)`: the remainder `x - y * trunc(x / y)`, which has the
sign of `x` and is computed without rounding error. -/
def mathMod (x y : ℚ) : ℚ := x - y * truncToInt (x / y)

/-- `Duration.Hours()` with `Hour = 3600000000000` nanoseconds; Go's integer
`/` and `%` truncate toward zero. -/
def durationHours (d : ℤ) : ℚ :=
  f64Add (f64OfInt (d.tdiv 3600000000000))
    (f64Div (f64OfInt (d.tmod 3600000000000)) 3600000000000)

/-- `Duration.Minutes()` with `Minute = 60000000000` nanoseconds. -/
def durationMinutes (d : ℤ) : ℚ :=
  f64Add (f64OfInt (d.tdiv 60000000000))
    (f64Div (f64OfInt (d.tmod 60000000000)) 60000000000)

/-- `time.Since(timestamp)` for a wall-clock timestamp: `now - timestamp` in
nanoseconds, saturated to the range of `int64` as `Time.Sub` does.  Instants
are in nanoseconds since the epoch. -/
def timeSince (now timestamp : ℤ) : ℤ :=
  max (-9223372036854775808) (min 9223372036854775807 (now - timestamp))

/-- The `hours` variable of `formatAge` (line 201). -/
def ageHours (now timestamp : ℤ) : ℤ :=
  truncToInt (durationHours (timeSince now timestamp))

/-- The `minutes` variable of `formatAge` (line 202). -/
def ageMinutes (now timestamp : ℤ) : ℤ :=
  truncToInt (mathMod (durationMinutes (timeSince now timestamp)) 60)

/-- `formatAge` (lines 199-204); `now` is the clock reading of `time.Since`. -/
def formatAge (now timestamp : ℤ) : String :=
  toString (ageHours now timestamp) ++ "h" ++ toString (ageMinutes now timestamp) ++ "m"

/-! ## Kubernetes records -/

/-- `v1.ContainerState`, reduced to what the program inspects:
`running` is `State.Running != nil`, `waiting` is the reason of
`State.Waiting` when that pointer is not nil. -/
structure ContainerState where
  running : Bool
  waiting : Option String
  deriving DecidableEq, Repr

/-- `v1.ContainerStatus`. `restartCount` is the API's `int32` counter of
restarts, which is never negative (data model: restartCount ≥ 0). -/
structure ContainerStatus where
  ready : Bool
  restartCount : Nat
  state : ContainerState
  deriving DecidableEq, Repr

/-- `v1.PodCondition` and `v1.NodeCondition`: the two fields that are read. -/
structure Condition where
  type : String
  status : String
  deriving DecidableEq, Repr

/-- `v1.Pod`, reduced to the fields `getAndWritePods` reads.
`creationTimestamp` is in nanoseconds since the epoch. -/
structure Pod where
  name : String
  phase : String
  containerStatuses : List ContainerStatus
  conditions : List Condition
  creationTimestamp : Int
  deriving DecidableEq, Repr

/-! ## `getAndWritePods`: the per-pod computation (lines 222-278) -/

/-- Lines 228-233, `ready`: the loop `if containerStatus.Ready { ready++ }`. -/
def countReady : List ContainerStatus → Nat
  | [] => 0
  | c :: cs => (if c.ready then 1 else 0) + countReady cs

/-- Lines 228-233, `total`: the loop `total++`. -/
def countTotal : List ContainerStatus → Nat
  | [] => 0
  | _ :: cs => 1 + countTotal cs

/-- Lines 236-241: the first container with `State.Running != nil` sets
`podStatus = "Running"` and leaves the loop. -/
def runningStep : List ContainerStatus → String → String
  | [], podStatus => podStatus
  | c :: cs, podStatus => if c.state.running then "Running" else runningStep cs podStatus

/-- Lines 244-246: an empty `podStatus` becomes the pod phase. -/
def phaseStep (phase : String) (podStatus : String) : String :=
  if podStatus = "" then phase else podStatus

/-- Lines 249-254: the first container that waits with reason
`"CrashLoopBackOff"` sets the status and leaves the loop. -/
def crashLoopStep : List ContainerStatus → String → String
  | [], podStatus => podStatus
  | c :: cs, podStatus =>
    if c.state.waiting = some "CrashLoopBackOff" then "CrashLoopBackOff"
    else crashLoopStep cs podStatus

/-- Lines 257-262: `maxRestartCount` starts at `0` and is raised by every
container whose count is larger. -/
def maxRestartLoop : List ContainerStatus → Nat → Nat
  | [], m => m
  | c :: cs, m => maxRestartLoop cs (if c.restartCount > m then c.restartCount else m)

/-- Lines 265-271: `isReady`, set by the first condition of type
`"ContainersReady"` with status `"True"`. -/
def isReadyLoop : List Condition → Bool
  | [] => false
  | c :: cs => if c.type = "ContainersReady" ∧ c.status = "True" then true else isReadyLoop cs

/-- Lines 274-276: a pod that is not ready but reads `"Running"` becomes
`"Unavailable"`. -/
def readinessStep (isReady : Bool) (podStatus : String) : String :=
  if !isReady && podStatus = "Running" then "Unavailable" else podStatus

/-- The value of `podStatus` at line 263, after the running-state, phase and
CrashLoopBackOff steps. -/
def statusBeforeReadiness (pod : Pod) : String :=
  crashLoopStep pod.containerStatuses
    (phaseStep pod.phase (runningStep pod.containerStatuses ""))

/-- The value of `podStatus` that line 278 prints. -/
def podStatus (pod : Pod) : String :=
  readinessStep (isReadyLoop pod.conditions) (statusBeforeReadiness pod)

/-- Line 278: the line of one pod,
`"%-13s%-43s%d/%d   %-19s%-11d%-8s\n"`. -/
def podLine (now : ℤ) (nsName : String) (pod : Pod) : String :=
  padRight 13 nsName ++ padRight 43 pod.name ++
    toString (countReady pod.containerStatuses) ++ "/" ++
    toString (countTotal pod.containerStatuses) ++ "   " ++
    padRight 19 (podStatus pod) ++
    padRight 11 (toString (maxRestartLoop pod.containerStatuses 0)) ++
    padRight 8 (formatAge now pod.creationTimestamp) ++ "\n"

/-- Lines 222-279: the lines of the pods of one namespace. -/
def podLines (now : ℤ) (nsName : String) : List Pod → String
  | [] => ""
  | pod :: pods => podLine now nsName pod ++ podLines now nsName pods

/-- Lines 216-280: the loop over the namespaces.  Each namespace comes with
the answer of its `Pods(ns).List` call; `none` is a failed call, which the
loop skips with `continue`. -/
def namespaceLines (now : ℤ) : List (String × Option (List Pod)) → String
  | [] => ""
  | (_, none) :: rest => namespaceLines now rest
  | (nsName, some pods) :: rest => podLines now nsName pods ++ namespaceLines now rest

/-- The text `getAndWritePods` hands to its writer (lines 208-283).  The clock
is read once for the whole listing. -/
def getAndWritePods (now : ℤ) (namespaces : List (String × Option (List Pod))) : String :=
  "NAMESPACE     NAME                                       READY   STATUS              RESTARTS   AGE\n"
    ++ namespaceLines now namespaces

/-! ## `getAndWriteNodes` (lines 290-332) -/

/-- `v1.Node`, reduced to the fields `getAndWriteNodes` reads.  `labels` lists
the label keys in the order in which the `range` over the map yields them. -/
structure Node where
  name : String
  conditions : List Condition
  labels : List String
  creationTimestamp : Int
  kubeletVersion : String
  deriving DecidableEq, Repr

/-- Lines 302-307: the first condition of type `"Ready"` with status `"True"`
sets `nodeStatus = "Ready"` and leaves the loop. -/
def readyConditionLoop : List Condition → String → String
  | [], nodeStatus => nodeStatus
  | c :: cs, nodeStatus =>
    if c.type = "Ready" ∧ c.status = "True" then "Ready" else readyConditionLoop cs nodeStatus

/-- Lines 301-310: the status column of a node. -/
def nodeStatus (node : Node) : String :=
  if readyConditionLoop node.conditions "" = "" then "NotReady"
  else readyConditionLoop node.conditions ""

/-- Lines 313-318: the suffixes of the labels `node-role.kubernetes.io/<role>`. -/
def roleLoop : List String → List String
  | [] => []
  | label :: labels =>
    if stringsHasPrefix label "node-role.kubernetes.io/" then
      stringsTrimPrefix label "node-role.kubernetes.io/" :: roleLoop labels
    else roleLoop labels

/-- Lines 313-321: the roles of a node, `["<none>"]` when it has no role label. -/
def nodeRoles (node : Node) : List String :=
  if (roleLoop node.labels).length = 0 then ["<none>"] else roleLoop node.labels

/-- Line 323: the line of one node, `"%-10s%-9s%-14s%-6s%-7s\n"`. -/
def nodeLine (now : ℤ) (node : Node) : String :=
  padRight 10 node.name ++ padRight 9 (nodeStatus node) ++
    padRight 14 (String.intercalate "," (nodeRoles node)) ++
    padRight 6 (formatAge now node.creationTimestamp) ++
    padRight 7 node.kubeletVersion ++ "\n"

/-- Lines 299-324: the loop over the nodes. -/
def nodeLines (now : ℤ) : List Node → String
  | [] => ""
  | node :: nodes => nodeLine now node ++ nodeLines now nodes

/-- The text `getAndWriteNodes` hands to its writer (lines 291-327).  The clock
is read once for the whole listing. -/
def getAndWriteNodes (now : ℤ) (nodes : List Node) : String :=
  "\nNAME       STATUS   ROLES         AGE   VERSION\n" ++ nodeLines now nodes

/-! ## The log file and the polling loops (lines 464-516 and 600-651)

`main` opens `logs.yaml` once with `os.Create` and hands that descriptor to
`multiWriter`; everything `getAndWriteNodes` prints goes through it.  The
tests empty the file by name with `ioutil.WriteFile`, which does not move the
descriptor: the next write through the descriptor lands at its old offset and
the gap before it reads as zero bytes. -/

/-- Go `len(s)`: the number of bytes. -/
def goLen (s : String) : Nat := s.utf8ByteSize

/-- The file `logs.yaml`: what a `ReadFile` returns, and the offset of the
descriptor held by `multiWriter`. -/
structure LogFile where
  content : String
  offset : Nat
  deriving DecidableEq, Repr

/-- `ioutil.WriteFile(outputFileName, []byte(""), 0644)`. -/
def clearFile (f : LogFile) : LogFile :=
  { content := "", offset := f.offset }

/-- A write of `p` through the descriptor, for a file that ends at or before
the offset (the loops only write to a file they have just emptied). -/
def writeAtOffset (f : LogFile) (p : String) : LogFile :=
  { content := f.content ++
      String.mk (List.replicate (f.offset - goLen f.content) (Char.ofNat 0)) ++ p
    offset := f.offset + goLen p }

/-- The cluster as the polling loop observes it: the nodes returned by the
`n`-th call of `Nodes().List`, and the clock at that call. -/
structure Cluster where
  nodesAt : Nat → List Node
  clockAt : Nat → ℤ

/-- The text the `n`-th call of `getAndWriteNodes` prints. -/
def snapshotText (cluster : Cluster) (n : Nat) : String :=
  getAndWriteNodes (cluster.clockAt n) (cluster.nodesAt n)

/-- The state a test threads through its loop: the log file, the text
appended to `test.yaml`, and two counters, the calls of `getAndWriteNodes` and
the calls of `time.Sleep(30 * time.Second)` made inside the loop. -/
structure TestRun where
  logs : LogFile
  report : String
  snapshots : Nat
  sleeps : Nat
  deriving DecidableEq, Repr

/-- The loop `for elapsed := 0; elapsed < 300; elapsed += 30` shared by both
tests (lines 464-503 and 600-639), entered with the current value of
`elapsed`.  `converged` is the test on the text read back from `logs.yaml`:
the two functions differ in it only. -/
def pollLoop (converged : String → Bool) (cluster : Cluster) (elapsed : Nat)
    (run : TestRun) : TestRun :=
  if elapsed < 300 then
    let logs := writeAtOffset (clearFile run.logs) (snapshotText cluster run.snapshots)
    if converged logs.content then
      { logs := logs, report := run.report ++ "success!\n\n",
        snapshots := run.snapshots + 1, sleeps := run.sleeps }
    else
      pollLoop converged cluster (elapsed + 30)
        { logs := clearFile logs, report := run.report,
          snapshots := run.snapshots + 1, sleeps := run.sleeps + 1 }
  else run
termination_by 300 - elapsed

/-- Lines 506-515 and 642-651: after the loop the file is read once more and
the marker is written when it is empty. -/
def finalCheck (marker : String) (run : TestRun) : TestRun :=
  if goLen run.logs.content = 0 then
    { logs := run.logs, report := run.report ++ marker,
      snapshots := run.snapshots, sleeps := run.sleeps }
  else run

/-- The header line written at lines 447-456 and 583-592. -/
def writeHeader (header : String) (run : TestRun) : TestRun :=
  { logs := run.logs, report := run.report ++ header,
    snapshots := run.snapshots, sleeps := run.sleeps }

/-- Line 485: the test `!strings.Contains(string(logsContent), "worker-3")`. -/
def workerGone (logsContent : String) : Bool :=
  !stringsContains logsContent "worker-3"

/-- Line 621: the test `strings.Contains(string(logsContent), "worker-3")`. -/
def workerListed (logsContent : String) : Bool :=
  stringsContains logsContent "worker-3"

/-- `performClusterScaleDownTest` (lines 442-517).  The call of
`modifyBKEClusterConfigDown` and the first `time.Sleep` act on the cluster
only; what they lead to is what `cluster` returns. -/
def performClusterScaleDownTest (cluster : Cluster) (run : TestRun) : TestRun :=
  finalCheck "failed\n\n"
    (pollLoop workerGone cluster 0
      (writeHeader "集群缩容测试:\n" run))

/-- `performClusterScaleUpTest` (lines 579-652). -/
def performClusterScaleUpTest (cluster : Cluster) (run : TestRun) : TestRun :=
  finalCheck "failed!\n\n"
    (pollLoop workerListed cluster 0
      (writeHeader "集群扩容测试:\n" run))

/-! ## The text edits of the cluster specification (lines 546-548, 681-691) -/

/-- The node-list entry of worker-3: the second pattern of line 548 and the
text `addition` of lines 682-688. -/
def workerEntry : String :=
  "- hostname: worker-3\n      ip: 10.50.8.49\n      password: L2IKDzrf0XEYVFGx0dV2/A==\n      port: \"22\"\n      role:\n      - node\n      username: root"

/-- The annotation with an empty value, the pattern of line 547. -/
def annotationEmpty : String :=
  "bke.bocloud.com/appointment-deleted-nodes: \"\""

/-- The annotation set to the address of worker-3, the replacement of line 547. -/
def annotationSet : String :=
  "bke.bocloud.com/appointment-deleted-nodes: \"10.50.8.49\""

/-- Line 547: the first empty annotation receives the address. -/
def annotateDeletedNode (yamlContent : String) : String :=
  stringsReplaceOne yamlContent annotationEmpty annotationSet

/-- Line 548: the first occurrence of the entry is replaced by the empty text. -/
def removeEntry (yamlContent : String) : String :=
  stringsReplaceOne yamlContent workerEntry ""

/-- The edit `modifyBKEClusterConfigDown` makes to the fetched document
(lines 547-548), before it is written back and applied. -/
def modifyBKEClusterConfigDown (yamlContent : String) : String :=
  removeEntry (annotateDeletedNode yamlContent)

/-- The edit `modifyBKEClusterConfigUp` makes to the fetched document
(line 691): the entry is inserted after the first `"spec:nodes:"`. -/
def modifyBKEClusterConfigUp (yamlContent : String) : String :=
  stringsReplaceOne yamlContent "spec:nodes:" ("spec:nodes:\n" ++ workerEntry)

/-! ## `writeComponentInstallationCheck` (lines 392-439) -/

/-- The pieces of a text between its newline characters: a text with `n`
newlines has `n + 1` pieces, the empty text has the one piece `[]`. -/
def splitNewline : List Char → List (List Char)
  | [] => [[]]
  | c :: cs =>
    if c = '\n' then [] :: splitNewline cs
    else
      match splitNewline cs with
      | [] => [[c]]
      | piece :: pieces => (c :: piece) :: pieces

/-- Go `strings.Split(s, "\n")`. -/
def stringsSplitLines (s : String) : List String :=
  (splitNewline s.data).map String.mk

/-- The pattern of line 419: the beginning of the header line that
`getAndWritePods` prints. -/
def podTableHeader : String :=
  "NAMESPACE     NAME                                       READY   STATUS"

/-- The test of line 412 on a line below the header: it is copied when it
contains neither "Running" nor "Succeeded". -/
def copiedLine (line : String) : Bool :=
  !stringsContains line "Running" && !stringsContains line "Succeeded"

/-- The loop of lines 409-428 over the lines of `logs.yaml`, with the flag
`writeOutput` and the text written to `test.yaml` so far; it returns both. -/
def installationLoop : List String → Bool → String → Bool × String
  | [], writeOutput, written => (writeOutput, written)
  | line :: lines, writeOutput, written =>
    if writeOutput then
      if copiedLine line then installationLoop lines true (written ++ (line ++ "\n"))
      else installationLoop lines true written
    else if stringsContains line podTableHeader then
      installationLoop lines true (written ++ (line ++ "\n"))
    else installationLoop lines false written

/-- The text of a sequence of writes `WriteString(line + "\n")`. -/
def joinLines : List String → String
  | [] => ""
  | line :: lines => (line ++ "\n") ++ joinLines lines

/-- `writeComponentInstallationCheck` (lines 392-439): the text it appends to
`test.yaml`, given the content of `logs.yaml`. -/
def writeComponentInstallationCheck (logsContent : String) : String :=
  if !(installationLoop (stringsSplitLines logsContent) false "组件安装测试:\n").1 then
    (installationLoop (stringsSplitLines logsContent) false "组件安装测试:\n").2 ++
      "success!\n"
  else (installationLoop (stringsSplitLines logsContent) false "组件安装测试:\n").2

/-! ## Texts that cannot overlap -/

/-- Two texts `p` and `b` that cannot overlap: neither occurs in the other,
and no end of one is a beginning of the other. -/
def Apart (p b : List Char) : Prop :=
  (∀ k < b.length, ¬ b.drop k <+: p) ∧ (∀ k < p.length, ¬ p.drop k <+: b) ∧
    ¬ p <:+: b ∧ ¬ b <:+: p

instance decidableApart (p b : List Char) : Decidable (Apart p b) := by
  unfold Apart
  infer_instance

/-! ## Sample data -/

/-- A cluster in which worker-3 is listed by the first `n` calls and gone
afterwards; every node was created at clock time. -/
def sampleCluster (n : Nat) : Cluster :=
  { nodesAt := fun i =>
      if i < n then
        [{ name := "master-1", conditions := [{ type := "Ready", status := "True" }],
           labels := ["node-role.kubernetes.io/master"], creationTimestamp := 0,
           kubeletVersion := "v1.25.6" },
         { name := "worker-3", conditions := [{ type := "Ready", status := "True" }],
           labels := [], creationTimestamp := 0, kubeletVersion := "v1.25.6" }]
      else
        [{ name := "master-1", conditions := [{ type := "Ready", status := "True" }],
           labels := ["node-role.kubernetes.io/master"], creationTimestamp := 0,
           kubeletVersion := "v1.25.6" }]
    clockAt := fun _ => 0 }

/-- A listing with one namespace and one pod, ready and running. -/
def samplePods : List (String × Option (List Pod)) :=
  [("kube-system", some
    [{ name := "kube-proxy", phase := "Running",
       containerStatuses :=
         [{ ready := true, restartCount := 0, state := { running := true, waiting := none } }],
       conditions := [{ type := "ContainersReady", status := "True" }],
       creationTimestamp := 0 }])]

/-- The header line of the pod table, as `getAndWritePods` prints it. -/
def sampleHeaderLine : String :=
  "NAMESPACE     NAME                                       READY   STATUS              RESTARTS   AGE"

/-- The line `getAndWritePods` prints for the pod of `samplePods`, created at
clock time. -/
def samplePodLine : String :=
  "kube-system  kube-proxy                                 1/1   Running            0          0h0m    "

/-- A node whose Ready condition comes second in its condition list. -/
def sampleNode : Node :=
  { name := "worker-1",
    conditions := [{ type := "MemoryPressure", status := "False" },
                   { type := "Ready", status := "True" }],
    labels := [], creationTimestamp := 0, kubeletVersion := "v1.25.6" }

/-- A run that starts with an empty log file and an empty report. -/
def freshRun : TestRun :=
  { logs := { content := "", offset := 0 }, report := "", snapshots := 0, sleeps := 0 }

set_option maxRecDepth 1000000

/-! ## Pod classification -/

theorem crashLoopStep_of_mem {cs : List ContainerStatus}
    (h : ∃ c ∈ cs, c.state.waiting = some "CrashLoopBackOff") (s : String) :
    crashLoopStep cs s = "CrashLoopBackOff" := by
  induction cs with
  | nil => simp at h
  | cons c cs ih =>
    unfold crashLoopStep
    by_cases hc : c.state.waiting = some "CrashLoopBackOff"
    · simp [hc]
    · simp only [hc, if_false]
      apply ih
      obtain ⟨d, hd, hw⟩ := h
      rcases List.mem_cons.mp hd with rfl | hd
      · exact absurd hw hc
      · exact ⟨d, hd, hw⟩

theorem isReadyLoop_eq_true_iff (conds : List Condition) :
    isReadyLoop conds = true ↔
      ∃ c ∈ conds, c.type = "ContainersReady" ∧ c.status = "True" := by
  induction conds with
  | nil => simp [isReadyLoop]
  | cons c cs ih =>
    unfold isReadyLoop
    by_cases hc : c.type = "ContainersReady" ∧ c.status = "True"
    · simp [hc]
    · rw [if_neg hc, ih]
      constructor
      · rintro ⟨d, hd, h⟩
        exact ⟨d, List.mem_cons_of_mem c hd, h⟩
      · rintro ⟨d, hd, h⟩
        rcases List.mem_cons.mp hd with rfl | hd
        · exact absurd h hc
        · exact ⟨d, hd, h⟩

theorem readyConditionLoop_of_mem {conds : List Condition}
    (h : ∃ c ∈ conds, c.type = "Ready" ∧ c.status = "True") (s : String) :
    readyConditionLoop conds s = "Ready" := by
  induction conds with
  | nil => simp at h
  | cons c cs ih =>
    unfold readyConditionLoop
    by_cases hc : c.type = "Ready" ∧ c.status = "True"
    · rw [if_pos hc]
    · rw [if_neg hc]
      apply ih
      obtain ⟨d, hd, hw⟩ := h
      rcases List.mem_cons.mp hd with rfl | hd
      · exact absurd hw hc
      · exact ⟨d, hd, hw⟩

theorem readyConditionLoop_of_not_mem {conds : List Condition}
    (h : ¬ ∃ c ∈ conds, c.type = "Ready" ∧ c.status = "True") (s : String) :
    readyConditionLoop conds s = s := by
  induction conds with
  | nil => rfl
  | cons c cs ih =>
    unfold readyConditionLoop
    have hc : ¬ (c.type = "Ready" ∧ c.status = "True") :=
      fun hc => h ⟨c, List.mem_cons_self c cs, hc⟩
    rw [if_neg hc]
    exact ih (fun ⟨d, hd, hw⟩ => h ⟨d, List.mem_cons_of_mem c hd, hw⟩)

theorem nodeStatus_of_ready {node : Node}
    (h : ∃ c ∈ node.conditions, c.type = "Ready" ∧ c.status = "True") :
    nodeStatus node = "Ready" := by
  unfold nodeStatus
  rw [readyConditionLoop_of_mem h]
  decide

theorem nodeStatus_of_not_ready {node : Node}
    (h : ¬ ∃ c ∈ node.conditions, c.type = "Ready" ∧ c.status = "True") :
    nodeStatus node = "NotReady" := by
  unfold nodeStatus
  rw [readyConditionLoop_of_not_mem h]
  decide

/-! ## binary64 rounding and the fields of `formatAge` -/

theorem floor_le_roundHalfEven (q : ℚ) : ⌊q⌋ ≤ roundHalfEven q := by
  unfold roundHalfEven
  split_ifs <;> omega

theorem roundHalfEven_le_floor_add_one (q : ℚ) : roundHalfEven q ≤ ⌊q⌋ + 1 := by
  unfold roundHalfEven
  split_ifs <;> omega

theorem roundHalfEven_intCast (n : ℤ) : roundHalfEven (n : ℚ) = n := by
  unfold roundHalfEven
  simp

/-- Rounding never crosses an integer above. -/
theorem roundHalfEven_le {q : ℚ} {n : ℤ} (h : q ≤ n) : roundHalfEven q ≤ n := by
  have hf : ⌊q⌋ ≤ n := by exact_mod_cast (Int.floor_le q).trans h
  rcases eq_or_lt_of_le hf with h1 | h1
  · have hq : q = n := le_antisymm h (by rw [← h1]; exact Int.floor_le q)
    rw [hq, roundHalfEven_intCast]
  · have := roundHalfEven_le_floor_add_one q
    omega

/-- Rounding never crosses an integer below. -/
theorem le_roundHalfEven {q : ℚ} {n : ℤ} (h : (n : ℚ) ≤ q) : n ≤ roundHalfEven q :=
  le_trans (Int.le_floor.mpr h) (floor_le_roundHalfEven q)

theorem two_zpow_pos (k : ℤ) : (0 : ℚ) < 2 ^ k := zpow_pos (by norm_num) k

theorem zpow_log_le {x : ℚ} (hx : 0 < x) : (2 : ℚ) ^ Int.log 2 x ≤ x := by
  have := Int.zpow_log_le_self (b := 2) (by norm_num) hx
  simpa using this

theorem lt_zpow_log_succ (x : ℚ) : x < (2 : ℚ) ^ (Int.log 2 x + 1) := by
  have := Int.lt_zpow_succ_log_self (b := 2) (by norm_num) x
  simpa using this

/-- A dyadic number `n * 2 ^ j` with `n < 2 ^ 53` that is at least `2 ^ e` has
`e - 52 ≤ j`: it is a multiple of the unit in the last place at exponent `e`. -/
theorem exp_le_of_dyadic_ge {n : ℕ} {j e : ℤ} (hn : n < 2 ^ 53)
    (h : (2 : ℚ) ^ e ≤ n * 2 ^ j) : e - 52 ≤ j := by
  by_contra hlt
  push_neg at hlt
  have h1 : (n : ℚ) * 2 ^ j < 2 ^ (53 : ℤ) * 2 ^ j := by
    apply mul_lt_mul_of_pos_right _ (two_zpow_pos j)
    have h0 : ((n : ℕ) : ℚ) < (2 : ℚ) ^ (53 : ℕ) := by exact_mod_cast hn
    rw [← zpow_natCast] at h0
    exact_mod_cast h0
  have h2 : (2 : ℚ) ^ (53 : ℤ) * 2 ^ j = 2 ^ (53 + j) := by
    rw [zpow_add₀ (by norm_num)]
  have h3 : (2 : ℚ) ^ (53 + j) ≤ 2 ^ e := zpow_le_zpow_right₀ (by norm_num) (by omega)
  linarith

/-- Upper sandwich: rounding a positive number does not pass a binary64 value
above it. -/
theorem roundPos_le {x : ℚ} (hx : 0 < x) {n : ℕ} {j : ℤ} (hn : n < 2 ^ 53)
    (h : x ≤ n * 2 ^ j) : roundPos x ≤ n * 2 ^ j := by
  have hexp : Int.log 2 x - 52 ≤ j :=
    exp_le_of_dyadic_ge hn ((zpow_log_le hx).trans h)
  obtain ⟨k, hk⟩ : ∃ k : ℕ, j = Int.log 2 x - 52 + k :=
    ⟨(j - (Int.log 2 x - 52)).toNat, by omega⟩
  have hu := two_zpow_pos (Int.log 2 x - 52)
  have hb : (n : ℚ) * 2 ^ j = ((n * 2 ^ k : ℤ) : ℚ) * 2 ^ (Int.log 2 x - 52) := by
    rw [hk, zpow_add₀ (by norm_num), zpow_natCast]
    push_cast
    ring
  rw [hb] at h ⊢
  unfold roundPos
  apply mul_le_mul_of_nonneg_right _ hu.le
  have : x / 2 ^ (Int.log 2 x - 52) ≤ ((n * 2 ^ k : ℤ) : ℚ) := by
    rw [div_le_iff₀ hu]
    exact h
  exact_mod_cast roundHalfEven_le this

/-- Lower sandwich: rounding a positive number does not pass a binary64 value
below it. -/
theorem le_roundPos {x : ℚ} (hx : 0 < x) {n : ℕ} {j : ℤ} (hn : n < 2 ^ 53)
    (h : (n : ℚ) * 2 ^ j ≤ x) : (n : ℚ) * 2 ^ j ≤ roundPos x := by
  have hu := two_zpow_pos (Int.log 2 x - 52)
  by_cases hexp : Int.log 2 x - 52 ≤ j
  · obtain ⟨k, hk⟩ : ∃ k : ℕ, j = Int.log 2 x - 52 + k :=
      ⟨(j - (Int.log 2 x - 52)).toNat, by omega⟩
    have hb : (n : ℚ) * 2 ^ j = ((n * 2 ^ k : ℤ) : ℚ) * 2 ^ (Int.log 2 x - 52) := by
      rw [hk, zpow_add₀ (by norm_num), zpow_natCast]
      push_cast
      ring
    rw [hb] at h ⊢
    unfold roundPos
    apply mul_le_mul_of_nonneg_right _ hu.le
    have : ((n * 2 ^ k : ℤ) : ℚ) ≤ x / 2 ^ (Int.log 2 x - 52) := by
      rw [le_div_iff₀ hu]
      exact h
    exact_mod_cast le_roundHalfEven this
  · -- the value lies below the binade of `x`
    have h1 : (n : ℚ) * 2 ^ j ≤ 2 ^ Int.log 2 x := by
      by_contra hc
      push_neg at hc
      exact hexp (exp_le_of_dyadic_ge hn hc.le)
    have h2 : (2 : ℚ) ^ Int.log 2 x = ((2 ^ 52 : ℤ) : ℚ) * 2 ^ (Int.log 2 x - 52) := by
      have : Int.log 2 x = 52 + (Int.log 2 x - 52) := by ring
      conv_lhs => rw [this, zpow_add₀ (by norm_num : (2 : ℚ) ≠ 0)]
      norm_num
    refine h1.trans ?_
    rw [h2]
    unfold roundPos
    apply mul_le_mul_of_nonneg_right _ hu.le
    have : ((2 ^ 52 : ℤ) : ℚ) ≤ x / 2 ^ (Int.log 2 x - 52) := by
      rw [le_div_iff₀ hu, ← h2]
      exact zpow_log_le hx
    exact_mod_cast le_roundHalfEven this

/-- A binary64 value is its own rounding. -/
theorem roundPos_dyadic {n : ℕ} {j : ℤ} (hn : n < 2 ^ 53) (hpos : 0 < n) :
    roundPos (n * 2 ^ j) = n * 2 ^ j := by
  have hx : (0 : ℚ) < n * 2 ^ j := mul_pos (by exact_mod_cast hpos) (two_zpow_pos j)
  exact le_antisymm (roundPos_le hx hn le_rfl) (le_roundPos hx hn le_rfl)

theorem roundBinary64_zero : roundBinary64 0 = 0 := by
  simp [roundBinary64]

theorem roundBinary64_neg (x : ℚ) : roundBinary64 (-x) = -roundBinary64 x := by
  unfold roundBinary64
  rcases lt_trichotomy x 0 with h | h | h
  · have h1 : ¬ (0 < x) := not_lt.mpr h.le
    have h2 : (0 : ℚ) < -x := neg_pos.mpr h
    simp [h, h1, h2]
  · subst h; simp
  · have h1 : ¬ (x < 0) := not_lt.mpr h.le
    have h2 : ¬ ((0 : ℚ) < -x) := by simpa using h.le
    simp [h, h1, h2]

/-- Sandwich for a non-negative argument between two binary64 values. -/
theorem roundBinary64_bounds {x : ℚ} (hx : 0 ≤ x) (na nb : ℕ) (ja jb : ℤ)
    (hna : na < 2 ^ 53) (hnb : nb < 2 ^ 53)
    (ha : (na : ℚ) * 2 ^ ja ≤ x) (hb : x ≤ nb * 2 ^ jb) :
    (na : ℚ) * 2 ^ ja ≤ roundBinary64 x ∧ roundBinary64 x ≤ nb * 2 ^ jb := by
  rcases eq_or_lt_of_le hx with h0 | hpos
  · subst h0
    rw [roundBinary64_zero]
    exact ⟨ha, hb⟩
  · have : roundBinary64 x = roundPos x := by simp [roundBinary64, hpos]
    rw [this]
    exact ⟨le_roundPos hpos hna ha, roundPos_le hpos hnb hb⟩

/-- A natural number below `2 ^ 53` converts to binary64 exactly. -/
theorem f64OfInt_natCast {n : ℕ} (hn : n < 2 ^ 53) : f64OfInt (n : ℤ) = n := by
  have h := roundBinary64_bounds (x := (n : ℚ)) (Nat.cast_nonneg n) n n 0 0 hn hn
    (by simp) (by simp)
  have h1 : f64OfInt (n : ℤ) = roundBinary64 (n : ℚ) := by simp [f64OfInt]
  rw [h1]
  exact le_antisymm (by simpa using h.2) (by simpa using h.1)

theorem truncToInt_of_bounds {s : ℚ} {h : ℕ} (h1 : (h : ℚ) ≤ s) (h2 : s < h + 1) :
    truncToInt s = h := by
  have hs : 0 ≤ s := le_trans (Nat.cast_nonneg h) h1
  simp only [truncToInt, hs, if_true]
  rw [Int.floor_eq_iff]
  exact ⟨by exact_mod_cast h1, by exact_mod_cast h2⟩

theorem truncToInt_neg (x : ℚ) : truncToInt (-x) = -truncToInt x := by
  unfold truncToInt
  rcases lt_trichotomy x 0 with h | h | h
  · have h1 : ¬ (0 ≤ x) := not_le.mpr h
    have h2 : (0 : ℚ) ≤ -x := by linarith
    simp [h1, h2, Int.floor_neg]
  · subst h; simp
  · have h1 : (0 : ℚ) ≤ x := h.le
    have h2 : ¬ ((0 : ℚ) ≤ -x) := by simpa using h
    simp [h1, h2, Int.ceil_neg]

/-- The fractional term of `Duration.Hours`: the quotient of the remaining
nanoseconds by `3.6e12` rounds to a value in `[0, 1 - 2^-42]`. -/
theorem hoursFrac_bounds {n : ℕ} (hn : n < 3600000000000) :
    0 ≤ f64Div (f64OfInt (n : ℤ)) 3600000000000 ∧
      f64Div (f64OfInt (n : ℤ)) 3600000000000 ≤ 1 - 2 ^ (-42 : ℤ) := by
  rw [f64OfInt_natCast (lt_trans hn (by norm_num))]
  have hq : (n : ℚ) ≤ 3599999999999 := by exact_mod_cast Nat.le_of_lt_succ hn
  have hn0 : (0 : ℚ) ≤ n := Nat.cast_nonneg n
  have h := roundBinary64_bounds (x := (n : ℚ) / 3600000000000) (by positivity)
    (0) (4398046511103) (0) (-42) (by norm_num) (by norm_num)
    (by simp; positivity)
    (by rw [div_le_iff₀ (by norm_num)]; norm_num; linarith)
  unfold f64Div
  refine ⟨by simpa using h.1, h.2.trans (le_of_eq ?_)⟩
  norm_num

/-- The fractional term of `Duration.Minutes` rounds to a value in
`[0, 1 - 2^-36]`. -/
theorem minutesFrac_bounds {n : ℕ} (hn : n < 60000000000) :
    0 ≤ f64Div (f64OfInt (n : ℤ)) 60000000000 ∧
      f64Div (f64OfInt (n : ℤ)) 60000000000 ≤ 1 - 2 ^ (-36 : ℤ) := by
  rw [f64OfInt_natCast (lt_trans hn (by norm_num))]
  have hq : (n : ℚ) ≤ 59999999999 := by exact_mod_cast Nat.le_of_lt_succ hn
  have hn0 : (0 : ℚ) ≤ n := Nat.cast_nonneg n
  have h := roundBinary64_bounds (x := (n : ℚ) / 60000000000) (by positivity)
    (0) (68719476735) (0) (-36) (by norm_num) (by norm_num)
    (by simp; positivity)
    (by rw [div_le_iff₀ (by norm_num)]; norm_num; linarith)
  unfold f64Div
  refine ⟨by simpa using h.1, h.2.trans (le_of_eq ?_)⟩
  norm_num

/-- Adding a fraction in `[0, 1 - 2^-k]` to a whole number `h` with
`(h + 1) * 2^k ≤ 2^53` rounds to a value in `[h, h + 1)`. -/
theorem f64Add_whole_frac {h k : ℕ} {q : ℚ} (hh : (h + 1) * 2 ^ k ≤ 2 ^ 53)
    (hq0 : 0 ≤ q) (hq1 : q ≤ 1 - 2 ^ (-(k : ℤ))) :
    (h : ℚ) ≤ f64Add (f64OfInt (h : ℤ)) q ∧ f64Add (f64OfInt (h : ℤ)) q < h + 1 := by
  have hk : 1 ≤ 2 ^ k := Nat.one_le_two_pow
  have hlt : h < 2 ^ 53 := by nlinarith
  rw [f64OfInt_natCast hlt]
  have hpow : (0 : ℚ) < 2 ^ (-(k : ℤ)) := two_zpow_pos _
  have hmul : (2 : ℚ) ^ (k : ℕ) * 2 ^ (-(k : ℤ)) = 1 := by
    rw [← zpow_natCast, ← zpow_add₀ (by norm_num)]; simp
  have hb : (((h + 1) * 2 ^ k - 1 : ℕ) : ℚ) * 2 ^ (-(k : ℤ)) = h + 1 - 2 ^ (-(k : ℤ)) := by
    have : 1 ≤ (h + 1) * 2 ^ k := by nlinarith
    rw [Nat.cast_sub this]
    push_cast
    linear_combination ((h : ℚ) + 1) * hmul
  have h := roundBinary64_bounds (x := (h : ℚ) + q) (by positivity)
    (h) ((h + 1) * 2 ^ k - 1) (0) (-(k : ℤ)) hlt (by omega)
    (by simp; exact hq0) (by rw [hb]; linarith)
  unfold f64Add
  refine ⟨by simpa using h.1, lt_of_le_of_lt h.2 ?_⟩
  rw [hb]
  linarith

theorem durationHours_natCast {d : ℕ} (hd : d < 2048 * 3600000000000) :
    ((d / 3600000000000 : ℕ) : ℚ) ≤ durationHours (d : ℤ) ∧
      durationHours (d : ℤ) < (d / 3600000000000 : ℕ) + 1 := by
  unfold durationHours
  have e1 : ((d : ℤ)).tdiv 3600000000000 = ((d / 3600000000000 : ℕ) : ℤ) := by
    rw [Int.ofNat_tdiv]; rfl
  have e2 : ((d : ℤ)).tmod 3600000000000 = ((d % 3600000000000 : ℕ) : ℤ) := by
    rw [Int.ofNat_tmod]; rfl
  rw [e1, e2]
  have hfrac := hoursFrac_bounds (n := d % 3600000000000) (Nat.mod_lt _ (by norm_num))
  have hh : d / 3600000000000 < 2048 := (Nat.div_lt_iff_lt_mul (by norm_num)).mpr hd
  exact f64Add_whole_frac (k := 42) (by norm_num; omega) hfrac.1 (by simpa using hfrac.2)

theorem durationMinutes_natCast {d : ℕ} (hd : d < 2048 * 3600000000000) :
    ((d / 60000000000 : ℕ) : ℚ) ≤ durationMinutes (d : ℤ) ∧
      durationMinutes (d : ℤ) < (d / 60000000000 : ℕ) + 1 := by
  unfold durationMinutes
  have e1 : ((d : ℤ)).tdiv 60000000000 = ((d / 60000000000 : ℕ) : ℤ) := by
    rw [Int.ofNat_tdiv]; rfl
  have e2 : ((d : ℤ)).tmod 60000000000 = ((d % 60000000000 : ℕ) : ℤ) := by
    rw [Int.ofNat_tmod]; rfl
  rw [e1, e2]
  have hfrac := minutesFrac_bounds (n := d % 60000000000) (Nat.mod_lt _ (by norm_num))
  have hh : d / 60000000000 < 122880 := (Nat.div_lt_iff_lt_mul (by norm_num)).mpr (by omega)
  exact f64Add_whole_frac (k := 36) (by norm_num; omega) hfrac.1 (by simpa using hfrac.2)

/-- `math.Mod(x, 60)` followed by the conversion to `int`, for `x` in `[m, m + 1)`. -/
theorem truncToInt_mathMod {x : ℚ} {m : ℕ} (h1 : (m : ℚ) ≤ x) (h2 : x < m + 1) :
    truncToInt (mathMod x 60) = (m % 60 : ℕ) := by
  have hdm : (m : ℚ) = 60 * (m / 60 : ℕ) + (m % 60 : ℕ) := by
    exact_mod_cast (Nat.div_add_mod m 60).symm
  have hr : ((m % 60 : ℕ) : ℚ) ≤ 59 := by
    exact_mod_cast Nat.le_of_lt_succ (Nat.mod_lt m (by norm_num))
  have hr0 : (0 : ℚ) ≤ (m % 60 : ℕ) := Nat.cast_nonneg _
  have hq : truncToInt (x / 60) = (m / 60 : ℕ) := by
    apply truncToInt_of_bounds
    · rw [le_div_iff₀ (by norm_num)]; linarith
    · rw [div_lt_iff₀ (by norm_num)]; linarith
  unfold mathMod
  rw [hq]
  apply truncToInt_of_bounds
  · rw [Int.cast_natCast]; linarith
  · rw [Int.cast_natCast]; linarith

theorem mathMod_neg (x y : ℚ) : mathMod (-x) y = -mathMod x y := by
  unfold mathMod
  rw [neg_div, truncToInt_neg]
  push_cast
  ring

theorem f64OfInt_neg (n : ℤ) : f64OfInt (-n) = -f64OfInt n := by
  unfold f64OfInt
  rw [Int.cast_neg, roundBinary64_neg]

theorem neg_tmod (a b : ℤ) : (-a).tmod b = -a.tmod b := by
  have h1 := Int.tdiv_add_tmod (-a) b
  have h2 := Int.tdiv_add_tmod a b
  rw [Int.neg_tdiv] at h1
  linarith

theorem durationHours_neg (d : ℤ) : durationHours (-d) = -durationHours d := by
  unfold durationHours f64Add f64Div
  rw [Int.neg_tdiv, neg_tmod, f64OfInt_neg, f64OfInt_neg, neg_div, roundBinary64_neg,
    ← neg_add, roundBinary64_neg]

theorem durationMinutes_neg (d : ℤ) : durationMinutes (-d) = -durationMinutes d := by
  unfold durationMinutes f64Add f64Div
  rw [Int.neg_tdiv, neg_tmod, f64OfInt_neg, f64OfInt_neg, neg_div, roundBinary64_neg,
    ← neg_add, roundBinary64_neg]

/-- Both printed fields, for an elapsed time of less than 2048 hours in either
direction: quotients truncated toward zero. -/
theorem ageFields_of_abs_lt {d : ℤ} (hd : |d| < 2048 * 3600000000000) :
    truncToInt (durationHours d) = d.tdiv 3600000000000 ∧
      truncToInt (mathMod (durationMinutes d) 60) = (d.tdiv 60000000000).tmod 60 := by
  have key : ∀ n : ℕ, n < 2048 * 3600000000000 →
      truncToInt (durationHours (n : ℤ)) = (n : ℤ).tdiv 3600000000000 ∧
      truncToInt (mathMod (durationMinutes (n : ℤ)) 60) =
        ((n : ℤ).tdiv 60000000000).tmod 60 := by
    intro n hn
    have hH := durationHours_natCast hn
    have hM := durationMinutes_natCast hn
    refine ⟨?_, ?_⟩
    · rw [truncToInt_of_bounds hH.1 hH.2, Int.ofNat_tdiv]; rfl
    · rw [truncToInt_mathMod hM.1 hM.2, Int.ofNat_tmod, Int.ofNat_tdiv]; rfl
  rcases le_total 0 d with h0 | h0
  · obtain ⟨n, rfl⟩ := Int.eq_ofNat_of_zero_le h0
    rw [abs_of_nonneg h0] at hd
    exact key n (by exact_mod_cast hd)
  · obtain ⟨n, hn⟩ := Int.eq_ofNat_of_zero_le (neg_nonneg.mpr h0)
    have hdn : d = -(n : ℤ) := by omega
    rw [abs_of_nonpos h0] at hd
    have := key n (by omega)
    rw [hdn, durationHours_neg, durationMinutes_neg, mathMod_neg, truncToInt_neg,
      truncToInt_neg, Int.neg_tdiv, Int.neg_tdiv, neg_tmod, this.1, this.2]
    exact ⟨rfl, rfl⟩

theorem timeSince_of_abs_lt {now timestamp : ℤ}
    (h : |now - timestamp| < 2048 * 3600000000000) :
    timeSince now timestamp = now - timestamp := by
  have := abs_lt.mp h
  unfold timeSince
  rw [min_eq_right (by omega), max_eq_right (by omega)]

/-- `formatAge` for a timestamp less than 2048 hours away from the clock, in
either direction: both fields are quotients truncated toward zero. -/
theorem formatAge_of_abs_lt {now timestamp : ℤ}
    (h : |now - timestamp| < 2048 * 3600000000000) :
    formatAge now timestamp =
      toString ((now - timestamp).tdiv 3600000000000) ++ "h" ++
        toString (((now - timestamp).tdiv 60000000000).tmod 60) ++ "m" := by
  have hf := ageFields_of_abs_lt h
  unfold formatAge ageHours ageMinutes
  rw [timeSince_of_abs_lt h, hf.1, hf.2]

theorem formatAge_self (t : ℤ) : formatAge t t = "0h0m" := by
  rw [formatAge_of_abs_lt (by simp)]
  simp only [sub_self]
  decide

/-! ## Two evaluations of `formatAge` -/

theorem roundHalfEven_eq_of_near {q : ℚ} {m : ℤ} (h : |q - m| < 1 / 2) :
    roundHalfEven q = m := by
  obtain ⟨h1, h2⟩ := abs_lt.mp h
  rcases le_or_lt (m : ℚ) q with hle | hlt
  · have hf : ⌊q⌋ = m := Int.floor_eq_iff.mpr ⟨hle, by linarith⟩
    unfold roundHalfEven
    rw [hf, if_pos (by linarith)]
  · have hf : ⌊q⌋ = m - 1 :=
      Int.floor_eq_iff.mpr ⟨by push_cast; linarith, by push_cast; linarith⟩
    unfold roundHalfEven
    rw [hf, if_neg (by push_cast; linarith), if_pos (by push_cast; linarith)]
    ring

/-- Evaluation of the rounding: a number in the binade `[2^e, 2^(e+1))` that
is less than half a unit away from `m` units rounds to `m` units. -/
theorem roundBinary64_eq_of_near {x : ℚ} (e m : ℤ) (h1 : (2 : ℚ) ^ e ≤ x)
    (h2 : x < 2 ^ (e + 1)) (h3 : |x / 2 ^ (e - 52) - m| < 1 / 2) :
    roundBinary64 x = m * 2 ^ (e - 52) := by
  have hx : 0 < x := lt_of_lt_of_le (two_zpow_pos e) h1
  have hlog : Int.log 2 x = e := by
    apply le_antisymm
    · have := (Int.lt_zpow_iff_log_lt (b := 2) (by norm_num) hx).mp (by simpa using h2)
      omega
    · exact (Int.zpow_le_iff_le_log (b := 2) (by norm_num) hx).mp (by simpa using h1)
  unfold roundBinary64 roundPos
  rw [if_pos hx, hlog, roundHalfEven_eq_of_near h3]

/-- Beyond 4096 hours the sum in `Duration.Hours` can round up to the next
whole hour: one nanosecond short of 4097 hours reads as 4097 hours. -/
theorem durationHours_rounds_up : durationHours 14749199999999999 = 4097 := by
  have e1 : (14749199999999999 : ℤ).tdiv 3600000000000 = ((4096 : ℕ) : ℤ) := by decide
  have e2 : (14749199999999999 : ℤ).tmod 3600000000000 = ((3599999999999 : ℕ) : ℤ) := by
    decide
  unfold durationHours
  rw [e1, e2, f64OfInt_natCast (by norm_num), f64OfInt_natCast (by norm_num)]
  have q : f64Div ((3599999999999 : ℕ) : ℚ) 3600000000000 =
      (9007199254738490 : ℤ) * 2 ^ ((-1 : ℤ) - 52) := by
    unfold f64Div
    apply roundBinary64_eq_of_near
    · norm_num
    · norm_num
    · rw [abs_lt]; constructor <;> norm_num
  rw [q]
  unfold f64Add
  have s := roundBinary64_eq_of_near
    (x := ((4096 : ℕ) : ℚ) + (9007199254738490 : ℤ) * 2 ^ ((-1 : ℤ) - 52))
    12 4504699138998272
    (by norm_num) (by norm_num) (by rw [abs_lt]; constructor <;> norm_num)
  rw [s]
  norm_num

theorem durationMinutes_near_hour :
    durationMinutes 14749199999999999 = 8446310885621759 / 34359738368 := by
  have e1 : (14749199999999999 : ℤ).tdiv 60000000000 = ((245819 : ℕ) : ℤ) := by decide
  have e2 : (14749199999999999 : ℤ).tmod 60000000000 = ((59999999999 : ℕ) : ℤ) := by decide
  unfold durationMinutes
  rw [e1, e2, f64OfInt_natCast (by norm_num), f64OfInt_natCast (by norm_num)]
  have q : f64Div ((59999999999 : ℕ) : ℚ) 60000000000 =
      (9007199254590872 : ℤ) * 2 ^ ((-1 : ℤ) - 52) := by
    unfold f64Div
    apply roundBinary64_eq_of_near
    · norm_num
    · norm_num
    · rw [abs_lt]; constructor <;> norm_num
  rw [q]
  unfold f64Add
  have s := roundBinary64_eq_of_near
    (x := ((245819 : ℕ) : ℚ) + (9007199254590872 : ℤ) * 2 ^ ((-1 : ℤ) - 52))
    17 8446310885621759
    (by norm_num) (by norm_num) (by rw [abs_lt]; constructor <;> norm_num)
  rw [s]
  norm_num

theorem timeSince_near_hour : timeSince 14749199999999999 0 = 14749199999999999 := by
  decide

theorem ageHours_rounds_up : ageHours 14749199999999999 0 = 4097 := by
  unfold ageHours
  rw [timeSince_near_hour, durationHours_rounds_up]
  have := truncToInt_of_bounds (s := (4097 : ℚ)) (h := 4097) (by norm_num) (by norm_num)
  simpa using this

theorem ageMinutes_near_hour : ageMinutes 14749199999999999 0 = 59 := by
  unfold ageMinutes
  rw [timeSince_near_hour, durationMinutes_near_hour]
  have := truncToInt_mathMod (x := (8446310885621759 / 34359738368 : ℚ)) (m := 245819)
    (by norm_num) (by norm_num)
  simpa using this

theorem text_4097h59m :
    toString (4097 : ℤ) ++ "h" ++ toString (59 : ℤ) ++ "m" = "4097h59m" := by
  decide

/-- The age printed one nanosecond before 4097 hours have passed. -/
theorem formatAge_rounds_up : formatAge 14749199999999999 0 = "4097h59m" := by
  unfold formatAge
  rw [ageHours_rounds_up, ageMinutes_near_hour]
  exact text_4097h59m

theorem text_future :
    toString ((0 - 9000000000000 : ℤ).tdiv 3600000000000) ++ "h" ++
      toString (((0 - 9000000000000 : ℤ).tdiv 60000000000).tmod 60) ++ "m" = "-2h-30m" := by
  decide

/-- The age printed for a timestamp two and a half hours ahead of the clock. -/
theorem formatAge_future : formatAge 0 9000000000000 = "-2h-30m" := by
  rw [formatAge_of_abs_lt (by norm_num [abs_lt])]
  exact text_future

theorem tdiv_eq_zero_of_abs_lt {d m : ℤ} (h : |d| < m) : d.tdiv m = 0 := by
  obtain ⟨h1, h2⟩ := abs_lt.mp h
  rcases le_total 0 d with h0 | h0
  · rw [Int.tdiv_eq_ediv h0 (by omega)]
    exact Int.ediv_eq_zero_of_lt h0 h2
  · have : (-d).tdiv m = 0 := by
      rw [Int.tdiv_eq_ediv (by omega) (by omega)]
      exact Int.ediv_eq_zero_of_lt (by omega) (by omega)
    rw [Int.neg_tdiv] at this
    omega

theorem text_1h30m :
    toString ((5430000000000 - 0 : ℤ).tdiv 3600000000000) ++ "h" ++
      toString (((5430000000000 - 0 : ℤ).tdiv 60000000000).tmod 60) ++ "m" = "1h30m" := by
  decide

theorem text_zero :
    toString ((0 : ℤ)) ++ "h" ++ toString ((0 : ℤ).tmod 60) ++ "m" = "0h0m" := by
  decide

/-! ## The polling loops -/

theorem infix_replicate_append {w : List Char} {c : Char} (hw : w ≠ []) (hc : c ∉ w)
    (n : Nat) (t : List Char) : w <:+: List.replicate n c ++ t ↔ w <:+: t := by
  induction n with
  | zero => simp
  | succ n ih =>
    rw [List.replicate_succ, List.cons_append, List.infix_cons_iff, ih]
    constructor
    · rintro (h | h)
      · exfalso
        obtain ⟨a, w', rfl⟩ := List.exists_cons_of_ne_nil hw
        obtain ⟨rfl, -⟩ := List.cons_prefix_cons.mp h
        exact hc (List.mem_cons_self a w')
      · exact h
    · exact Or.inr

/-- What a `ReadFile` returns after the file was emptied and `p` was written
through the descriptor: the gap of zero bytes, then `p`. -/
theorem content_after_write (f : LogFile) (p : String) :
    (writeAtOffset (clearFile f) p).content.data =
      List.replicate (f.offset - goLen "") (Char.ofNat 0) ++ p.data := by
  simp [writeAtOffset, clearFile, String.data_append]

/-- The zero bytes in front of the snapshot do not change the search for
"worker-3". -/
theorem contains_after_write (f : LogFile) (p : String) :
    stringsContains (writeAtOffset (clearFile f) p).content "worker-3" =
      stringsContains p "worker-3" := by
  unfold stringsContains
  rw [content_after_write]
  congr 1
  exact propext (infix_replicate_append (by decide) (by decide) _ _)

theorem goLen_eq_zero_iff (s : String) : goLen s = 0 ↔ s.data = [] := by
  rcases s with ⟨cs⟩
  cases cs with
  | nil => simp [goLen, String.utf8ByteSize, String.utf8ByteSize.go]
  | cons c cs =>
    have := Char.utf8Size_pos c
    simp [goLen, String.utf8ByteSize, String.utf8ByteSize.go]
    omega

/-- A snapshot is never empty: it starts with the header line. -/
theorem snapshot_not_empty (f : LogFile) (cluster : Cluster) (n : Nat) :
    goLen (writeAtOffset (clearFile f) (snapshotText cluster n)).content ≠ 0 := by
  rw [Ne, goLen_eq_zero_iff, content_after_write]
  simp [snapshotText, getAndWriteNodes, String.data_append]

theorem pollLoop_done (converged : String → Bool) (cluster : Cluster) {elapsed : Nat}
    (run : TestRun) (hE : ¬ elapsed < 300) :
    pollLoop converged cluster elapsed run = run := by
  rw [pollLoop, if_neg hE]

theorem pollLoop_stop (converged : String → Bool) (cluster : Cluster) {elapsed : Nat}
    (run : TestRun) (hE : elapsed < 300)
    (h : converged (writeAtOffset (clearFile run.logs)
      (snapshotText cluster run.snapshots)).content = true) :
    pollLoop converged cluster elapsed run =
      { logs := writeAtOffset (clearFile run.logs) (snapshotText cluster run.snapshots),
        report := run.report ++ "success!\n\n",
        snapshots := run.snapshots + 1, sleeps := run.sleeps } := by
  rw [pollLoop, if_pos hE]
  simp only [h, if_true]

theorem pollLoop_continue (converged : String → Bool) (cluster : Cluster) {elapsed : Nat}
    (run : TestRun) (hE : elapsed < 300)
    (h : converged (writeAtOffset (clearFile run.logs)
      (snapshotText cluster run.snapshots)).content = false) :
    pollLoop converged cluster elapsed run =
      pollLoop converged cluster (elapsed + 30)
        { logs := clearFile (writeAtOffset (clearFile run.logs)
            (snapshotText cluster run.snapshots)),
          report := run.report, snapshots := run.snapshots + 1, sleeps := run.sleeps + 1 } := by
  rw [pollLoop, if_pos hE]
  simp only [h, Bool.false_eq_true, if_false]

/-- The loop stops at the first snapshot on which the test holds: entered
with `elapsed` and `30 * n` more seconds to spare, after `n` failing snapshots
and one passing one. -/
theorem pollLoop_converges (converged : String → Bool) (test : String → Bool)
    (hconv : ∀ f p, converged (writeAtOffset (clearFile f) p).content = test p)
    (cluster : Cluster) (n : Nat) :
    ∀ (elapsed : Nat) (run : TestRun), elapsed + 30 * n < 300 →
      (∀ i < n, test (snapshotText cluster (run.snapshots + i)) = false) →
      test (snapshotText cluster (run.snapshots + n)) = true →
      (pollLoop converged cluster elapsed run).report = run.report ++ "success!\n\n" ∧
      (pollLoop converged cluster elapsed run).snapshots = run.snapshots + n + 1 ∧
      (pollLoop converged cluster elapsed run).sleeps = run.sleeps + n ∧
      goLen (pollLoop converged cluster elapsed run).logs.content ≠ 0 := by
  induction n with
  | zero =>
    intro elapsed run hlt _ hyes
    rw [pollLoop_stop converged cluster run (by omega) (by rw [hconv]; exact hyes)]
    exact ⟨rfl, rfl, rfl, snapshot_not_empty _ _ _⟩
  | succ n ih =>
    intro elapsed run hlt hno hyes
    have h0 : test (snapshotText cluster run.snapshots) = false := by
      simpa using hno 0 (Nat.succ_pos n)
    rw [pollLoop_continue converged cluster run (by omega) (by rw [hconv]; exact h0)]
    obtain ⟨h1, h2, h3, h4⟩ := ih (elapsed + 30)
      { logs := clearFile (writeAtOffset (clearFile run.logs) (snapshotText cluster run.snapshots)),
        report := run.report, snapshots := run.snapshots + 1, sleeps := run.sleeps + 1 }
      (by omega)
      (fun i hi => by
        have := hno (i + 1) (by omega)
        simpa [Nat.add_assoc, Nat.add_comm 1 i] using this)
      (by simpa [Nat.add_assoc, Nat.add_comm 1 n] using hyes)
    refine ⟨h1, ?_, ?_, h4⟩
    · rw [h2]; dsimp only; omega
    · rw [h3]; dsimp only; omega

/-- The loop runs out: entered with `elapsed`, it makes `n` rounds when the
test fails on the `n` snapshots that fit before 300 seconds, and leaves the
file empty. -/
theorem pollLoop_times_out (converged : String → Bool) (test : String → Bool)
    (hconv : ∀ f p, converged (writeAtOffset (clearFile f) p).content = test p)
    (cluster : Cluster) (n : Nat) :
    ∀ (elapsed : Nat) (run : TestRun), 300 ≤ elapsed + 30 * n →
      (∀ i < n, elapsed + 30 * i < 300) →
      (∀ i < n, test (snapshotText cluster (run.snapshots + i)) = false) →
      (pollLoop converged cluster elapsed run).report = run.report ∧
      (pollLoop converged cluster elapsed run).snapshots = run.snapshots + n ∧
      (pollLoop converged cluster elapsed run).sleeps = run.sleeps + n ∧
      (0 < n → (pollLoop converged cluster elapsed run).logs.content = "") ∧
      (n = 0 → pollLoop converged cluster elapsed run = run) := by
  induction n with
  | zero =>
    intro elapsed run hge _ _
    rw [pollLoop_done converged cluster run (by omega)]
    exact ⟨rfl, rfl, rfl, fun h => absurd h (lt_irrefl 0), fun _ => rfl⟩
  | succ n ih =>
    intro elapsed run hge hlt hno
    have hE : elapsed < 300 := by simpa using hlt 0 (Nat.succ_pos n)
    have h0 : test (snapshotText cluster run.snapshots) = false := by
      simpa using hno 0 (Nat.succ_pos n)
    rw [pollLoop_continue converged cluster run hE (by rw [hconv]; exact h0)]
    obtain ⟨h1, h2, h3, h4, h5⟩ := ih (elapsed + 30)
      { logs := clearFile (writeAtOffset (clearFile run.logs) (snapshotText cluster run.snapshots)),
        report := run.report, snapshots := run.snapshots + 1, sleeps := run.sleeps + 1 }
      (by omega)
      (fun i hi => by have := hlt (i + 1) (by omega); omega)
      (fun i hi => by
        have := hno (i + 1) (by omega)
        simpa [Nat.add_assoc, Nat.add_comm 1 i] using this)
    refine ⟨h1, ?_, ?_, fun _ => ?_, fun h => absurd h (Nat.succ_ne_zero n)⟩
    · rw [h2]; dsimp only; omega
    · rw [h3]; dsimp only; omega
    · rcases Nat.eq_zero_or_pos n with hn | hn
      · rw [h5 hn]; rfl
      · exact h4 hn

/-- Whatever the snapshots show, a loop entered with at most `n` rounds left
takes at most `n` snapshots and sleeps at most `n` times. -/
theorem pollLoop_bounded (converged : String → Bool) (cluster : Cluster) (n : Nat) :
    ∀ (elapsed : Nat) (run : TestRun), 300 ≤ elapsed + 30 * n →
      (pollLoop converged cluster elapsed run).snapshots ≤ run.snapshots + n ∧
      (pollLoop converged cluster elapsed run).sleeps ≤ run.sleeps + n := by
  induction n with
  | zero =>
    intro elapsed run hge
    rw [pollLoop_done converged cluster run (by omega)]
    exact ⟨le_rfl, le_rfl⟩
  | succ n ih =>
    intro elapsed run hge
    by_cases hE : elapsed < 300
    · cases hc : converged (writeAtOffset (clearFile run.logs)
          (snapshotText cluster run.snapshots)).content
      · rw [pollLoop_continue converged cluster run hE hc]
        obtain ⟨h1, h2⟩ := ih (elapsed + 30)
          { logs := clearFile (writeAtOffset (clearFile run.logs)
              (snapshotText cluster run.snapshots)),
            report := run.report, snapshots := run.snapshots + 1, sleeps := run.sleeps + 1 }
          (by omega)
        constructor
        · refine le_trans h1 ?_; show run.snapshots + 1 + n ≤ _; omega
        · refine le_trans h2 ?_; show run.sleeps + 1 + n ≤ _; omega
      · rw [pollLoop_stop converged cluster run hE hc]
        exact ⟨by show run.snapshots + 1 ≤ _; omega, by show run.sleeps ≤ _; omega⟩
    · rw [pollLoop_done converged cluster run hE]
      exact ⟨by omega, by omega⟩

/-- The tests of both loops read through the zero bytes in front of the
snapshot. -/
theorem workerGone_after_write (f : LogFile) (p : String) :
    workerGone (writeAtOffset (clearFile f) p).content = workerGone p := by
  unfold workerGone
  rw [contains_after_write]

theorem workerListed_after_write (f : LogFile) (p : String) :
    workerListed (writeAtOffset (clearFile f) p).content = workerListed p := by
  unfold workerListed
  rw [contains_after_write]

theorem sampleCluster_lists_worker3 {n i : Nat} (h : i < n) :
    stringsContains (snapshotText (sampleCluster n) i) "worker-3" = true := by
  simp only [snapshotText, sampleCluster, h, if_true, getAndWriteNodes, nodeLines, nodeLine,
    formatAge_self]
  decide

theorem sampleCluster_omits_worker3 {n i : Nat} (h : ¬ i < n) :
    stringsContains (snapshotText (sampleCluster n) i) "worker-3" = false := by
  simp only [snapshotText, sampleCluster, h, if_false, getAndWriteNodes, nodeLines, nodeLine,
    formatAge_self]
  decide

/-! ## Replacement of the first occurrence -/

/-- A text without occurrence of `old` is left as it is. -/
theorem replaceFirst_of_absent {old : List Char} (new : List Char) :
    ∀ {s : List Char}, ¬ old <:+: s → replaceFirst old new s = s := by
  intro s
  induction s with
  | nil =>
    intro h
    have : old ≠ [] := fun e => h (e ▸ List.infix_refl _)
    simp [replaceFirst, this]
  | cons c cs ih =>
    intro h
    have h1 : ¬ old <+: c :: cs := fun hp => h hp.isInfix
    have h2 : ¬ old <:+: cs := fun hi => h (List.infix_cons hi)
    rw [replaceFirst, if_neg h1, ih h2]

/-- The occurrence that starts right after `a` is the leftmost one when `old`
does not occur in `a` followed by all but the last character of `old`; it is
the one that is replaced. -/
theorem replaceFirst_append {old : List Char} (new : List Char) (b : List Char) :
    ∀ {a : List Char}, ¬ old <:+: a ++ old.dropLast →
      replaceFirst old new (a ++ old ++ b) = a ++ new ++ b := by
  intro a
  induction a with
  | nil =>
    intro _
    cases old with
    | nil => cases b <;> simp [replaceFirst]
    | cons o os =>
      simp only [List.nil_append, List.cons_append]
      rw [replaceFirst, if_pos (by simp)]
      simp
  | cons c cs ih =>
    intro h
    have hne : old ≠ [] := by
      rintro rfl
      exact h List.nil_infix
    have h1 : ¬ old <+: c :: (cs ++ old ++ b) := by
      intro hp
      apply h
      have hp2 : (c :: cs) ++ old.dropLast <+: c :: (cs ++ old ++ b) := by
        have : c :: (cs ++ old ++ b) = ((c :: cs) ++ old.dropLast) ++
            ([old.getLast hne] ++ b) := by
          conv_lhs => rw [← List.dropLast_append_getLast hne]
          simp
        rw [this]
        exact List.prefix_append _ _
      have hlen : old.length ≤ ((c :: cs) ++ old.dropLast).length := by
        simp only [List.length_append, List.length_cons, List.length_dropLast]
        omega
      exact (List.prefix_of_prefix_length_le hp hp2 hlen).isInfix
    have h2 : ¬ old <:+: cs ++ old.dropLast := fun hi => h (by
      rw [List.cons_append]
      exact List.infix_cons hi)
    simp only [List.cons_append]
    rw [replaceFirst, if_neg h1, ih h2]

/-- A text in which `old` occurs splits at the leftmost occurrence. -/
theorem exists_first_occurrence {old : List Char} (hne : old ≠ []) :
    ∀ {s : List Char}, old <:+: s →
      ∃ a b, s = a ++ old ++ b ∧ ¬ old <:+: a ++ old.dropLast := by
  intro s
  induction s with
  | nil =>
    intro h
    exact absurd (List.eq_nil_of_infix_nil h) hne
  | cons c cs ih =>
    intro h
    by_cases hp : old <+: c :: cs
    · obtain ⟨b, hb⟩ := hp
      refine ⟨[], b, by simpa using hb.symm, ?_⟩
      intro hi
      have := hi.length_le
      simp only [List.nil_append, List.length_dropLast] at this
      have hpos : 0 < old.length := List.length_pos.mpr hne
      omega
    · rcases List.infix_cons_iff.mp h with h' | h'
      · exact absurd h' hp
      · obtain ⟨a, b, hs, hfirst⟩ := ih h'
        refine ⟨c :: a, b, by simp [hs], ?_⟩
        intro hi
        rw [List.cons_append] at hi
        rcases List.infix_cons_iff.mp hi with hi' | hi'
        · apply hp
          have hp2 : c :: (a ++ old.dropLast) <+: c :: cs := by
            have : c :: cs = (c :: (a ++ old.dropLast)) ++ ([old.getLast hne] ++ b) := by
              rw [hs]
              conv_lhs => rw [← List.dropLast_append_getLast hne]
              simp
            rw [this]
            exact List.prefix_append _ _
          exact hi'.trans hp2
        · exact hfirst hi'

/-- Two occurrences of texts that cannot overlap lie one after the other. -/
theorem apart_split {p b : List Char} (h : Apart p b) {x y u v : List Char}
    (e : x ++ b ++ y = u ++ p ++ v) :
    (∃ w, x = u ++ p ++ w ∧ v = w ++ b ++ y) ∨
      (∃ w, y = w ++ p ++ v ∧ u = x ++ b ++ w) := by
  obtain ⟨c1, c2, c3, c4⟩ := h
  rw [List.append_assoc, List.append_assoc, List.append_eq_append_iff] at e
  rcases e with ⟨a', hu, hby⟩ | ⟨c', hx, hpv⟩
  · -- `p` starts at or after the start of `b`
    rcases List.append_eq_append_iff.mp hby with ⟨a'', ha, hy⟩ | ⟨c'', hb, hpv⟩
    · -- `p` starts after the end of `b`
      right
      refine ⟨a'', ?_, ?_⟩
      · rw [hy]; simp
      · rw [hu, ha]; simp
    · -- `b = a' ++ c''` and `p ++ v = c'' ++ y`
      by_cases hc : c'' = []
      · subst hc
        right
        refine ⟨[], ?_, ?_⟩
        · simpa using hpv.symm
        · rw [hu, hb]; simp
      · exfalso
        have hk : a'.length < b.length := by
          rw [hb, List.length_append]
          have := List.length_pos.mpr hc
          omega
        have hdrop : b.drop a'.length = c'' := by
          rw [hb, List.drop_left]
        have hc1 : c'' <+: p ++ v := ⟨y, hpv.symm⟩
        rcases List.prefix_or_prefix_of_prefix hc1 (List.prefix_append p v) with hh | hh
        · exact c1 _ hk (hdrop ▸ hh)
        · apply c3
          have : p <:+: c'' := hh.isInfix
          exact this.trans ⟨a', [], by simp [hb]⟩
  · -- `p` starts before the start of `b`
    rcases List.append_eq_append_iff.mp hpv with ⟨a'', hc, hv⟩ | ⟨c'', hp, hby⟩
    · -- `c' = p ++ a''`
      left
      exact ⟨a'', by rw [hx, hc]; simp, by rw [hv]; simp⟩
    · by_cases hc : c'' = []
      · subst hc
        left
        refine ⟨[], ?_, ?_⟩
        · rw [hx, hp]; simp
        · simpa using hby.symm
      · exfalso
        have hk : c'.length < p.length := by
          rw [hp, List.length_append]
          have := List.length_pos.mpr hc
          omega
        have hdrop : p.drop c'.length = c'' := by
          rw [hp, List.drop_left]
        have hc1 : c'' <+: b ++ y := ⟨v, hby.symm⟩
        rcases List.prefix_or_prefix_of_prefix hc1 (List.prefix_append b y) with hh | hh
        · exact c2 _ hk (hdrop ▸ hh)
        · apply c4
          have : b <:+: c'' := hh.isInfix
          exact this.trans ⟨c', [], by simp [hp]⟩

/-- An occurrence of `p` in a text around `b`, which it cannot overlap, lies
before or after `b`. -/
theorem apart_occurrence {p b : List Char} (h : Apart p b) {x y : List Char}
    (hi : p <:+: x ++ b ++ y) : p <:+: x ∨ p <:+: y := by
  obtain ⟨u, v, e⟩ := hi
  rcases apart_split h e.symm with ⟨w, hx, -⟩ | ⟨w, hy, -⟩
  · exact Or.inl ⟨u, w, hx.symm⟩
  · exact Or.inr ⟨w, v, hy.symm⟩

/-- An occurrence in `x ++ y` lies in `x`, lies in `y`, or straddles the
junction. -/
theorem infix_append_cases {l x y : List Char} (h : l <:+: x ++ y) :
    l <:+: x ∨ l <:+: y ∨
      ∃ l1 l2, l1 ≠ [] ∧ l2 ≠ [] ∧ l = l1 ++ l2 ∧ l1 <:+ x ∧ l2 <+: y := by
  obtain ⟨u, v, e⟩ := h
  rw [List.append_assoc, List.append_eq_append_iff] at e
  rcases e with ⟨a', hx, hlv⟩ | ⟨c', -, hy⟩
  · rcases List.append_eq_append_iff.mp hlv with ⟨a'', ha, -⟩ | ⟨c'', hl, hy⟩
    · exact Or.inl ⟨u, a'', by rw [hx, ha]; simp⟩
    · by_cases h1 : a' = []
      · subst h1
        exact Or.inr (Or.inl ⟨[], v, by rw [hy, hl]; simp⟩)
      · by_cases h2 : c'' = []
        · subst h2
          exact Or.inl ⟨u, [], by rw [hx, hl]; simp⟩
        · exact Or.inr (Or.inr ⟨a', c'', h1, h2, hl, ⟨u, hx.symm⟩, ⟨v, hy.symm⟩⟩)
  · exact Or.inr (Or.inl ⟨c', v, by rw [hy]; simp⟩)

/-- The characters on both sides of a junction occur next to each other in
any text that straddles it. -/
theorem pair_infix_of_straddle {l1 l2 x y : List Char} {a b : Char}
    (h1 : l1 ≠ []) (h2 : l2 ≠ []) (hs : l1 <:+ x ++ [a]) (hp : l2 <+: b :: y) :
    [a, b] <:+: l1 ++ l2 := by
  obtain ⟨t, ht⟩ := hs
  obtain ⟨r, hr⟩ := hp
  obtain ⟨l1', c, rfl⟩ : ∃ l1' c, l1 = l1' ++ [c] := by
    refine ⟨l1.dropLast, l1.getLast h1, (List.dropLast_append_getLast h1).symm⟩
  obtain ⟨d, l2', rfl⟩ := List.exists_cons_of_ne_nil h2
  have hc : c = a := by
    have := congrArg List.getLast? ht
    simpa [← List.append_assoc] using this
  have hd : d = b := by
    have := congrArg List.head? hr
    simpa using this
  subst hc hd
  exact ⟨l1', l2', by simp⟩

theorem infix_singleton {l : List Char} {a : Char} (h : l <:+: [a]) : l = [] ∨ l = [a] := by
  obtain ⟨u, v, e⟩ := h
  rcases l with _ | ⟨c, cs⟩
  · exact Or.inl rfl
  · right
    rcases u with _ | ⟨u0, us⟩
    · rcases cs with _ | ⟨c1, cs'⟩
      · have hc : c = a := by simpa using congrArg List.head? e
        rw [hc]
      · simp at e
    · have := congrArg List.length e
      simp at this

/-- The entry inserted after a newline is the leftmost occurrence of the
entry, when the text before the newline holds none. -/
theorem inserted_is_first {E : List Char} {nl h : Char} (hhead : E.head? = some h)
    (hlast : ¬ [nl] <:+ E) (hpair : ¬ [nl, h] <:+: E) {x : List Char}
    (hx : ¬ E <:+: x) : ¬ E <:+: (x ++ [nl]) ++ E.dropLast := by
  have hne : E ≠ [] := by
    rintro rfl
    simp at hhead
  intro hi
  rcases infix_append_cases hi with h1 | h2 | ⟨l1, l2, hl1, hl2, hE, hs, hp⟩
  · rcases infix_append_cases h1 with h3 | h4 | ⟨m1, m2, -, hm2, hE', -, hp'⟩
    · exact hx h3
    · rcases infix_singleton h4 with h5 | h5
      · exact hne h5
      · exact hlast (h5 ▸ List.suffix_refl _)
    · apply hlast
      rcases infix_singleton hp'.isInfix with h5 | h5
      · exact absurd h5 hm2
      · rw [hE', h5]
        exact List.suffix_append _ _
  · have := h2.length_le
    rw [List.length_dropLast] at this
    have := List.length_pos.mpr hne
    omega
  · apply hpair
    obtain ⟨e, es, rfl⟩ := List.exists_cons_of_ne_nil hne
    have he : e = h := by simpa using hhead
    subst he
    have hp2 : l2 <+: e :: es := hp.trans (List.dropLast_prefix _)
    have := pair_infix_of_straddle hl1 hl2 hs hp2
    rwa [← hE] at this

/-- Replacing `A` by `A'` creates no occurrence of a text that cannot overlap
`A'`. -/
theorem not_infix_replaceFirst {E A A' : List Char} (hA : A ≠ []) (hEA' : Apart E A')
    {s : List Char} (hE : ¬ E <:+: s) : ¬ E <:+: replaceFirst A A' s := by
  by_cases hAs : A <:+: s
  · obtain ⟨x, y, hs, hfirst⟩ := exists_first_occurrence hA hAs
    rw [hs, replaceFirst_append A' y hfirst]
    intro hi
    apply hE
    rw [hs]
    rcases apart_occurrence hEA' hi with h | h
    · exact h.trans ⟨[], A ++ y, by simp⟩
    · exact h.trans ⟨x ++ A, [], by simp⟩
  · rw [replaceFirst_of_absent A' hAs]
    exact hE

/-- Replacing `A` by `A'` keeps every occurrence of a text that cannot overlap
`A`. -/
theorem infix_replaceFirst {E A A' : List Char} (hA : A ≠ []) (hEA : Apart E A)
    {s : List Char} (hE : E <:+: s) : E <:+: replaceFirst A A' s := by
  by_cases hAs : A <:+: s
  · obtain ⟨x, y, hs, hfirst⟩ := exists_first_occurrence hA hAs
    rw [hs, replaceFirst_append A' y hfirst]
    rw [hs] at hE
    rcases apart_occurrence hEA hE with h | h
    · exact h.trans ⟨[], A' ++ y, by simp⟩
    · exact h.trans ⟨x ++ A', [], by simp⟩
  · rw [replaceFirst_of_absent A' hAs]
    exact hE

/-- The removal edit on lists: after the annotation edit the leftmost
occurrence of the entry is deleted, and a set annotation survives. -/
theorem remove_lists {E A : List Char} (A' : List Char) (hA : A ≠ []) (hEne : E ≠ [])
    (hEA : Apart E A) (hA'E : Apart A' E) {s : List Char} (hE : E <:+: s) :
    ∃ pre post, replaceFirst A A' s = pre ++ E ++ post ∧
      ¬ E <:+: pre ++ E.dropLast ∧
      replaceFirst E [] (replaceFirst A A' s) = pre ++ post ∧
      (A <:+: s → A' <:+: pre ++ post) := by
  obtain ⟨pre, post, hs, hfirst⟩ := exists_first_occurrence hEne (infix_replaceFirst hA hEA hE)
  refine ⟨pre, post, hs, hfirst, ?_, fun hAs => ?_⟩
  · rw [hs, replaceFirst_append [] post hfirst]
    simp
  · obtain ⟨x, y, hxy, hAfirst⟩ := exists_first_occurrence hA hAs
    have h1 : A' <:+: replaceFirst A A' s := by
      rw [hxy, replaceFirst_append A' y hAfirst]
      exact List.infix_append _ _ _
    rw [hs] at h1
    rcases apart_occurrence hA'E h1 with h | h
    · exact h.trans ⟨[], post, by simp⟩
    · exact h.trans ⟨pre, [], by simp⟩

/-- Leftmost occurrences start no later than any other occurrence. -/
theorem first_occurrence_le {old a b a' b' : List Char}
    (hfirst : ¬ old <:+: a ++ old.dropLast) (e : a ++ old ++ b = a' ++ old ++ b') :
    a.length ≤ a'.length := by
  by_contra hlt
  push_neg at hlt
  apply hfirst
  have hne : old ≠ [] := by
    rintro rfl
    exact hfirst List.nil_infix
  have p1 : a' ++ old <+: a ++ old ++ b := by
    rw [e]
    exact List.prefix_append _ _
  have p2 : a ++ old.dropLast <+: a ++ old ++ b := by
    have : a ++ old ++ b = (a ++ old.dropLast) ++ ([old.getLast hne] ++ b) := by
      conv_lhs => rw [← List.dropLast_append_getLast hne]
      simp
    rw [this]
    exact List.prefix_append _ _
  have hlen : (a' ++ old).length ≤ (a ++ old.dropLast).length := by
    simp only [List.length_append, List.length_dropLast]
    have := List.length_pos.mpr hne
    omega
  have hpre : a' ++ old <+: a ++ old.dropLast := List.prefix_of_prefix_length_le p1 p2 hlen
  exact (List.suffix_append a' old).isInfix.trans hpre.isInfix

/-- Insertion after the first `K`, then the annotation edit, then removal of
the entry: the outcome is the text with a newline after the first `K` and the
annotation edit applied. -/
theorem roundtrip_lists {E A : List Char} (A' K : List Char) {nl h : Char}
    (hA : A ≠ []) (hK : K ≠ []) (hhead : E.head? = some h)
    (hlast : ¬ [nl] <:+ E) (hpair : ¬ [nl, h] <:+: E)
    (hEA' : Apart E A') (hAins : Apart A (nl :: E)) (hAnl : Apart A [nl]) (hKA : Apart K A)
    {s : List Char} (hE : ¬ E <:+: s) :
    replaceFirst E [] (replaceFirst A A' (replaceFirst K (K ++ nl :: E) s)) =
      replaceFirst A A' (replaceFirst K (K ++ [nl]) s) := by
  by_cases hKs : K <:+: s
  · obtain ⟨p, q, hs, hKfirst⟩ := exists_first_occurrence hK hKs
    have hup : replaceFirst K (K ++ nl :: E) s = p ++ (K ++ nl :: E) ++ q := by
      rw [hs, replaceFirst_append _ q hKfirst]
    have hins : replaceFirst K (K ++ [nl]) s = p ++ (K ++ [nl]) ++ q := by
      rw [hs, replaceFirst_append _ q hKfirst]
    rw [hup, hins]
    have hEpK : ¬ E <:+: p ++ K := fun hi => hE (hs ▸ hi.trans ⟨[], q, by simp⟩)
    by_cases hAs : A <:+: s
    · obtain ⟨x, y, hxy, hAfirst⟩ := exists_first_occurrence hA hAs
      have e : x ++ A ++ y = p ++ K ++ q := by rw [← hxy, ← hs]
      rcases apart_split hKA e with ⟨w, hx, hq⟩ | ⟨w, hy, hp⟩
      · -- the annotation comes after `K`
        subst hx hq
        have f1 : ¬ A <:+: (p ++ (K ++ nl :: E) ++ w) ++ A.dropLast := by
          intro hi
          have hi' : A <:+: (p ++ K) ++ (nl :: E) ++ (w ++ A.dropLast) := by
            simpa [List.append_assoc] using hi
          apply hAfirst
          rcases apart_occurrence hAins hi' with h1 | h1
          · exact h1.trans ⟨[], w ++ A.dropLast, by simp⟩
          · exact h1.trans ⟨p ++ K, [], by simp⟩
        have f2 : ¬ A <:+: (p ++ (K ++ [nl]) ++ w) ++ A.dropLast := by
          intro hi
          have hi' : A <:+: (p ++ K) ++ [nl] ++ (w ++ A.dropLast) := by
            simpa [List.append_assoc] using hi
          apply hAfirst
          rcases apart_occurrence hAnl hi' with h1 | h1
          · exact h1.trans ⟨[], w ++ A.dropLast, by simp⟩
          · exact h1.trans ⟨p ++ K, [], by simp⟩
        have g1 : p ++ (K ++ nl :: E) ++ (w ++ A ++ y) =
            (p ++ (K ++ nl :: E) ++ w) ++ A ++ y := by simp
        have g2 : p ++ (K ++ [nl]) ++ (w ++ A ++ y) = (p ++ (K ++ [nl]) ++ w) ++ A ++ y := by simp
        rw [g1, g2, replaceFirst_append A' y f1, replaceFirst_append A' y f2]
        have g3 : (p ++ (K ++ nl :: E) ++ w) ++ A' ++ y =
            ((p ++ K) ++ [nl]) ++ E ++ (w ++ A' ++ y) := by simp
        rw [g3, replaceFirst_append [] _ (inserted_is_first hhead hlast hpair hEpK)]
        simp
      · -- the annotation comes before `K`
        subst hp
        have g1 : x ++ A ++ w ++ (K ++ nl :: E) ++ q = x ++ A ++ (w ++ (K ++ nl :: E) ++ q) := by
          simp
        have g2 : x ++ A ++ w ++ (K ++ [nl]) ++ q = x ++ A ++ (w ++ (K ++ [nl]) ++ q) := by simp
        rw [g1, g2, replaceFirst_append A' _ hAfirst, replaceFirst_append A' _ hAfirst]
        have hEx : ¬ E <:+: (x ++ A' ++ w) ++ K := by
          intro hi
          have hi' : E <:+: x ++ A' ++ (w ++ K) := by simpa [List.append_assoc] using hi
          rcases apart_occurrence hEA' hi' with h1 | h1
          · exact hEpK (h1.trans ⟨[], A ++ w ++ K, by simp⟩)
          · exact hEpK (h1.trans ⟨x ++ A, [], by simp⟩)
        have g3 : x ++ A' ++ (w ++ (K ++ nl :: E) ++ q) =
            (((x ++ A' ++ w) ++ K) ++ [nl]) ++ E ++ q := by simp
        rw [g3, replaceFirst_append [] _ (inserted_is_first hhead hlast hpair hEx)]
        simp
    · -- no empty annotation in the text
      have hs' : s = (p ++ K) ++ q := by rw [hs]
      have n1 : ¬ A <:+: p ++ (K ++ nl :: E) ++ q := by
        intro hi
        have hi' : A <:+: (p ++ K) ++ (nl :: E) ++ q := by simpa [List.append_assoc] using hi
        apply hAs
        rw [hs']
        rcases apart_occurrence hAins hi' with h1 | h1
        · exact h1.trans ⟨[], q, by simp⟩
        · exact h1.trans ⟨p ++ K, [], by simp⟩
      have n2 : ¬ A <:+: p ++ (K ++ [nl]) ++ q := by
        intro hi
        have hi' : A <:+: (p ++ K) ++ [nl] ++ q := by simpa [List.append_assoc] using hi
        apply hAs
        rw [hs']
        rcases apart_occurrence hAnl hi' with h1 | h1
        · exact h1.trans ⟨[], q, by simp⟩
        · exact h1.trans ⟨p ++ K, [], by simp⟩
      rw [replaceFirst_of_absent A' n1, replaceFirst_of_absent A' n2]
      have g3 : p ++ (K ++ nl :: E) ++ q = ((p ++ K) ++ [nl]) ++ E ++ q := by simp
      rw [g3, replaceFirst_append [] _ (inserted_is_first hhead hlast hpair hEpK)]
      simp
  · rw [replaceFirst_of_absent _ hKs, replaceFirst_of_absent _ hKs]
    exact replaceFirst_of_absent [] (not_infix_replaceFirst hA hEA' hE)

/-! ## The patterns of the two edits -/

theorem apart_entry_annotationEmpty : Apart workerEntry.data annotationEmpty.data := by decide

theorem apart_entry_annotationSet : Apart workerEntry.data annotationSet.data := by decide

theorem apart_annotationSet_entry : Apart annotationSet.data workerEntry.data := by decide

theorem apart_annotationEmpty_inserted :
    Apart annotationEmpty.data ('\n' :: workerEntry.data) := by decide

theorem apart_annotationEmpty_newline : Apart annotationEmpty.data ['\n'] := by decide

theorem apart_key_annotationEmpty : Apart "spec:nodes:".data annotationEmpty.data := by decide

theorem entry_head : workerEntry.data.head? = some '-' := by decide

theorem entry_not_ends_newline : ¬ ['\n'] <:+ workerEntry.data := by decide

theorem entry_no_newline_dash : ¬ ['\n', '-'] <:+: workerEntry.data := by decide

theorem stringsContains_eq_true {s sub : String} :
    stringsContains s sub = true ↔ sub.data <:+: s.data := by
  simp [stringsContains]

theorem stringsContains_eq_false {s sub : String} :
    stringsContains s sub = false ↔ ¬ sub.data <:+: s.data := by
  simp [stringsContains]

/-! ## `formatAge` on two timestamps -/

/-- The order of the claim on the pair (hours, minutes): the first pair is at
least the second one, hours first. -/
theorem ageFields_mono_nat {a b : ℕ} (h : b ≤ a) :
    b / 3600000000000 < a / 3600000000000 ∨
      (b / 3600000000000 = a / 3600000000000 ∧
        b / 60000000000 % 60 ≤ a / 60000000000 % 60) := by
  omega

/-- A fraction of at most one half, added to a whole number below `2 ^ 51`,
does not reach the next whole number. -/
theorem f64Add_whole_small {h n D : ℕ} (hh : h < 2 ^ 51) (hD : 0 < D) (hD53 : D < 2 ^ 53)
    (hn : 2 * n ≤ D) :
    (h : ℚ) ≤ f64Add (f64OfInt (h : ℤ)) (f64Div (f64OfInt (n : ℤ)) D) ∧
      f64Add (f64OfInt (h : ℤ)) (f64Div (f64OfInt (n : ℤ)) D) < h + 1 := by
  have hDq : (0 : ℚ) < D := by exact_mod_cast hD
  have hnq : (2 : ℚ) * n ≤ D := by exact_mod_cast hn
  have hn0 : (0 : ℚ) ≤ n := Nat.cast_nonneg n
  rw [f64OfInt_natCast (n := n) (by omega)]
  have hb := roundBinary64_bounds (x := (n : ℚ) / D) (by positivity) 0 1 0 (-1)
    (by norm_num) (by norm_num) (by simp; positivity)
    (by rw [div_le_iff₀ hDq]; norm_num; linarith)
  have hq1 : f64Div (n : ℚ) D ≤ 1 - 2 ^ (-((1 : ℕ) : ℤ)) := by
    unfold f64Div
    refine hb.2.trans (le_of_eq ?_)
    norm_num
  have hq0 : 0 ≤ f64Div (n : ℚ) D := by
    unfold f64Div
    simpa using hb.1
  exact f64Add_whole_frac (k := 1) (by omega) hq0 hq1

theorem timeSince_older : timeSince 14749200999999999 0 = 14749200999999999 := by
  decide

theorem timeSince_younger : timeSince 14749200999999999 1000000000 = 14749199999999999 := by
  decide

/-- The older of the two timestamps: 4097 hours and just under one second
have passed, printed as 4097 hours and 0 minutes. -/
theorem ageFields_older :
    ageHours 14749200999999999 0 = 4097 ∧ ageMinutes 14749200999999999 0 = 0 := by
  have e1 : (14749200999999999 : ℤ).tdiv 3600000000000 = ((4097 : ℕ) : ℤ) := by decide
  have e2 : (14749200999999999 : ℤ).tmod 3600000000000 = ((999999999 : ℕ) : ℤ) := by decide
  have e3 : (14749200999999999 : ℤ).tdiv 60000000000 = ((245820 : ℕ) : ℤ) := by decide
  have e4 : (14749200999999999 : ℤ).tmod 60000000000 = ((999999999 : ℕ) : ℤ) := by decide
  have hH := f64Add_whole_small (h := 4097) (n := 999999999) (D := 3600000000000)
    (by norm_num) (by norm_num) (by norm_num) (by norm_num)
  have hM := f64Add_whole_small (h := 245820) (n := 999999999) (D := 60000000000)
    (by norm_num) (by norm_num) (by norm_num) (by norm_num)
  constructor
  · unfold ageHours durationHours
    rw [timeSince_older, e1, e2]
    have := truncToInt_of_bounds hH.1 hH.2
    simpa using this
  · unfold ageMinutes durationMinutes
    rw [timeSince_older, e3, e4]
    have := truncToInt_mathMod hM.1 hM.2
    simpa using this

/-- The younger of the two timestamps: one nanosecond short of 4097 hours
have passed, printed as 4097 hours and 59 minutes. -/
theorem ageFields_younger :
    ageHours 14749200999999999 1000000000 = 4097 ∧
      ageMinutes 14749200999999999 1000000000 = 59 := by
  constructor
  · have := ageHours_rounds_up
    unfold ageHours at this ⊢
    rw [timeSince_younger]
    rw [timeSince_near_hour] at this
    exact this
  · have := ageMinutes_near_hour
    unfold ageMinutes at this ⊢
    rw [timeSince_younger]
    rw [timeSince_near_hour] at this
    exact this

theorem text_4097h0m :
    toString (4097 : ℤ) ++ "h" ++ toString (0 : ℤ) ++ "m" = "4097h0m" := by
  decide

theorem formatAge_older : formatAge 14749200999999999 0 = "4097h0m" := by
  unfold formatAge
  rw [ageFields_older.1, ageFields_older.2]
  exact text_4097h0m

theorem formatAge_younger : formatAge 14749200999999999 1000000000 = "4097h59m" := by
  unfold formatAge
  rw [ageFields_younger.1, ageFields_younger.2]
  exact text_4097h59m

/-- Where the rounding is exact the claim holds: for timestamps `t1 < t2 ≤ now`
less than 2048 hours old, the pair (hours, minutes) of `t1` is at least the
pair of `t2`, hours first. -/
theorem ageFields_monotone {now t1 t2 : ℤ} (h12 : t1 < t2) (h2 : t2 ≤ now)
    (hage : now - t1 < 2048 * 3600000000000) :
    ageHours now t2 < ageHours now t1 ∨
      (ageHours now t2 = ageHours now t1 ∧ ageMinutes now t2 ≤ ageMinutes now t1) := by
  have b1 : |now - t1| < 2048 * 3600000000000 := by rw [abs_lt]; constructor <;> omega
  have b2 : |now - t2| < 2048 * 3600000000000 := by rw [abs_lt]; constructor <;> omega
  have f1 := ageFields_of_abs_lt b1
  have f2 := ageFields_of_abs_lt b2
  unfold ageHours ageMinutes
  rw [timeSince_of_abs_lt b1, timeSince_of_abs_lt b2, f1.1, f1.2, f2.1, f2.2]
  obtain ⟨a, ha⟩ := Int.eq_ofNat_of_zero_le (by omega : 0 ≤ now - t1)
  obtain ⟨b, hb⟩ := Int.eq_ofNat_of_zero_le (by omega : 0 ≤ now - t2)
  rw [ha, hb]
  have hba : b ≤ a := by omega
  have key := ageFields_mono_nat hba
  have c1 : ((a : ℕ) : ℤ).tdiv 3600000000000 = ((a / 3600000000000 : ℕ) : ℤ) := by
    rw [Int.ofNat_tdiv]; rfl
  have c2 : ((b : ℕ) : ℤ).tdiv 3600000000000 = ((b / 3600000000000 : ℕ) : ℤ) := by
    rw [Int.ofNat_tdiv]; rfl
  have c3 : (((a : ℕ) : ℤ).tdiv 60000000000).tmod 60 =
      ((a / 60000000000 % 60 : ℕ) : ℤ) := by
    rw [Int.ofNat_tmod, Int.ofNat_tdiv]; rfl
  have c4 : (((b : ℕ) : ℤ).tdiv 60000000000).tmod 60 =
      ((b / 60000000000 % 60 : ℕ) : ℤ) := by
    rw [Int.ofNat_tmod, Int.ofNat_tdiv]; rfl
  simp only [Int.ofNat_eq_coe] at *
  rw [c1, c2, c3, c4]
  rcases key with h | ⟨h, h'⟩
  · exact Or.inl (by exact_mod_cast h)
  · exact Or.inr ⟨by exact_mod_cast h, by exact_mod_cast h'⟩

/-! ## The component installation check -/

/-- Below the header the loop copies the lines that pass the test of line 412
and keeps the flag. -/
theorem installationLoop_true (lines : List String) (written : String) :
    installationLoop lines true written =
      (true, written ++ joinLines (lines.filter copiedLine)) := by
  induction lines generalizing written with
  | nil => simp [installationLoop, joinLines]
  | cons line lines ih =>
    rw [installationLoop, if_pos rfl]
    by_cases hc : copiedLine line = true
    · rw [if_pos hc, ih, List.filter_cons_of_pos hc, joinLines]
      simp only [String.append_assoc]
    · rw [if_neg hc, ih, List.filter_cons_of_neg hc]

/-- Without a header line the loop writes nothing and the flag stays down. -/
theorem installationLoop_no_header {lines : List String}
    (h : ∀ l ∈ lines, stringsContains l podTableHeader = false) (written : String) :
    installationLoop lines false written = (false, written) := by
  induction lines with
  | nil => rfl
  | cons line lines ih =>
    rw [installationLoop, if_neg (by decide),
      if_neg (by rw [h line (List.mem_cons_self line lines)]; decide)]
    exact ih (fun l hl => h l (List.mem_cons_of_mem line hl))

/-- At the first header line the loop copies it and raises the flag. -/
theorem installationLoop_header {pre post : List String} {header : String}
    (hpre : ∀ l ∈ pre, stringsContains l podTableHeader = false)
    (hh : stringsContains header podTableHeader = true) (written : String) :
    installationLoop (pre ++ header :: post) false written =
      (true, written ++ (header ++ "\n") ++ joinLines (post.filter copiedLine)) := by
  induction pre with
  | nil =>
    rw [List.nil_append, installationLoop, if_neg (by decide), if_pos hh, installationLoop_true]
  | cons line pre ih =>
    rw [List.cons_append, installationLoop, if_neg (by decide),
      if_neg (by rw [hpre line (List.mem_cons_self line pre)]; decide)]
    exact ih (fun l hl => hpre l (List.mem_cons_of_mem line hl))

/-- A list with a header line splits at the first one. -/
theorem exists_first_header {lines : List String}
    (h : ∃ l ∈ lines, stringsContains l podTableHeader = true) :
    ∃ pre header post, lines = pre ++ header :: post ∧
      (∀ l ∈ pre, stringsContains l podTableHeader = false) ∧
      stringsContains header podTableHeader = true := by
  induction lines with
  | nil => simp at h
  | cons line lines ih =>
    by_cases hl : stringsContains line podTableHeader = true
    · exact ⟨[], line, lines, rfl, by simp, hl⟩
    · obtain ⟨l, hmem, hc⟩ := h
      rcases List.mem_cons.mp hmem with rfl | hmem
      · exact absurd hc hl
      · obtain ⟨pre, header, post, e, hpre, hh⟩ := ih ⟨l, hmem, hc⟩
        refine ⟨line :: pre, header, post, by rw [e]; rfl, ?_, hh⟩
        intro x hx
        rcases List.mem_cons.mp hx with rfl | hx
        · simpa using hl
        · exact hpre x hx

/-- A line that contains the header is longer than the marker. -/
theorem header_line_ne_marker {header : String} (rest : String)
    (hh : stringsContains header podTableHeader = true) :
    (header ++ "\n") ++ rest ≠ "success!\n" := by
  intro e
  have hlen := congrArg String.length e
  have h1 : podTableHeader.length ≤ header.length :=
    (stringsContains_eq_true.mp hh).length_le
  have h2 : 9 < podTableHeader.length := by decide
  have h3 : ("success!\n" : String).length = 9 := by decide
  simp only [String.length_append] at hlen
  omega

theorem samplePods_log :
    getAndWritePods 0 samplePods = sampleHeaderLine ++ "\n" ++ (samplePodLine ++ "\n") := by
  simp only [getAndWritePods, samplePods, namespaceLines, podLines, podLine, formatAge_self]
  decide

theorem samplePods_lines :
    stringsSplitLines (getAndWritePods 0 samplePods) =
      [] ++ sampleHeaderLine :: [samplePodLine, ""] := by
  rw [samplePods_log]
  decide

theorem samplePods_report :
    "组件安装测试:\n" ++ (sampleHeaderLine ++ "\n") ++
        joinLines (List.filter copiedLine [samplePodLine, ""]) =
      "组件安装测试:\n" ++ sampleHeaderLine ++ "\n" ++ "\n" := by
  decide

/-! ## The rows of the node table -/

theorem nodeStatus_eq_ite (node : Node) :
    nodeStatus node =
      if ∃ c ∈ node.conditions, c.type = "Ready" ∧ c.status = "True" then "Ready"
      else "NotReady" := by
  by_cases h : ∃ c ∈ node.conditions, c.type = "Ready" ∧ c.status = "True"
  · rw [if_pos h, nodeStatus_of_ready h]
  · rw [if_neg h, nodeStatus_of_not_ready h]

theorem nodeStatus_perm {node : Node} {conds : List Condition}
    (hp : conds.Perm node.conditions) :
    nodeStatus { node with conditions := conds } = nodeStatus node := by
  by_cases h : ∃ c ∈ node.conditions, c.type = "Ready" ∧ c.status = "True"
  · rw [nodeStatus_of_ready h]
    apply nodeStatus_of_ready
    obtain ⟨c, hc, hw⟩ := h
    exact ⟨c, hp.mem_iff.mpr hc, hw⟩
  · rw [nodeStatus_of_not_ready h]
    apply nodeStatus_of_not_ready
    rintro ⟨c, hc, hw⟩
    exact h ⟨c, hp.mem_iff.mp hc, hw⟩

/-- The row of a node, with the status column spelled out. -/
theorem nodeLine_status (now : ℤ) (node : Node) :
    nodeLine now node =
      padRight 10 node.name ++
        padRight 9 (if ∃ c ∈ node.conditions, c.type = "Ready" ∧ c.status = "True"
          then "Ready" else "NotReady") ++
        padRight 14 (String.intercalate "," (nodeRoles node)) ++
        padRight 6 (formatAge now node.creationTimestamp) ++
        padRight 7 node.kubeletVersion ++ "\n" := by
  unfold nodeLine
  rw [nodeStatus_eq_ite]

theorem sampleNode_report :
    "\nNAME       STATUS   ROLES         AGE   VERSION\n" ++
        List.foldr (fun (n : Node) (text : String) =>
          padRight 10 n.name ++
            padRight 9 (if ∃ c ∈ n.conditions, c.type = "Ready" ∧ c.status = "True"
              then "Ready" else "NotReady") ++
            padRight 14 (String.intercalate "," (nodeRoles n)) ++
            padRight 6 (formatAge 0 n.creationTimestamp) ++
            padRight 7 n.kubeletVersion ++ "\n" ++ text) "" [sampleNode] =
      "\nNAME       STATUS   ROLES         AGE   VERSION\n" ++
        "worker-1  Ready    <none>        0h0m  v1.25.6\n" := by
  simp only [List.foldr, sampleNode, formatAge_self]
  decide

/-! ## The fields of `formatAge` up to the first rounding failure -/

theorem roundHalfEven_le_pred {q : ℚ} {N : ℤ} (h : q < N - 1 / 2) :
    roundHalfEven q ≤ N - 1 := by
  have hf : ⌊q⌋ ≤ N - 1 := by
    have h1 : (⌊q⌋ : ℚ) < N := by linarith [Int.floor_le q]
    have h2 : ⌊q⌋ < N := by exact_mod_cast h1
    omega
  rcases eq_or_lt_of_le hf with h1 | h1
  · unfold roundHalfEven
    rw [if_pos (by rw [h1]; push_cast; linarith)]
    exact hf
  · have := roundHalfEven_le_floor_add_one q
    omega

/-- A number of the binade `[2^e, 2^(e+1))` that lies below the midpoint under
`N` units rounds to at most `N - 1` units. -/
theorem roundBinary64_le_pred {x : ℚ} (e N : ℤ) (h1 : (2 : ℚ) ^ e ≤ x)
    (h2 : x < 2 ^ (e + 1)) (h3 : x / 2 ^ (e - 52) < N - 1 / 2) :
    roundBinary64 x ≤ (N - 1) * 2 ^ (e - 52) := by
  have hx : 0 < x := lt_of_lt_of_le (two_zpow_pos e) h1
  have hlog : Int.log 2 x = e := by
    apply le_antisymm
    · have := (Int.lt_zpow_iff_log_lt (b := 2) (by norm_num) hx).mp (by simpa using h2)
      omega
    · exact (Int.zpow_le_iff_le_log (b := 2) (by norm_num) hx).mp (by simpa using h1)
  unfold roundBinary64 roundPos
  rw [if_pos hx, hlog]
  apply mul_le_mul_of_nonneg_right _ (two_zpow_pos _).le
  exact_mod_cast roundHalfEven_le_pred h3

/-- Adding a fraction to a whole number `h` of the binade `[2^E, 2^(E+1))`:
when the fraction stays more than half a unit in the last place below one, the
sum rounds to a value in `[h, h + 1)`. -/
theorem f64Add_whole_frac_wide {h E : ℕ} {q : ℚ} (hlo : 2 ^ E ≤ h)
    (hhi : h + 1 ≤ 2 ^ (E + 1)) (hE : E ≤ 52) (hq0 : 0 ≤ q) (hq1 : q < 1 - 2 ^ ((E : ℤ) - 53)) :
    (h : ℚ) ≤ f64Add (f64OfInt (h : ℤ)) q ∧ f64Add (f64OfInt (h : ℤ)) q < h + 1 := by
  have hpow : 2 ^ (E + 1) ≤ 2 ^ 53 := Nat.pow_le_pow_right (by norm_num) (by omega)
  have hlt : h < 2 ^ 53 := by omega
  rw [f64OfInt_natCast hlt]
  have hloq : (2 : ℚ) ^ (E : ℤ) ≤ h := by
    rw [zpow_natCast]
    exact_mod_cast hlo
  have hhiq : (h : ℚ) + 1 ≤ 2 ^ ((E : ℤ) + 1) := by
    have : ((h + 1 : ℕ) : ℚ) ≤ ((2 ^ (E + 1) : ℕ) : ℚ) := by exact_mod_cast hhi
    have e : ((E : ℤ) + 1) = ((E + 1 : ℕ) : ℤ) := by push_cast; ring
    rw [e, zpow_natCast]
    push_cast at this ⊢
    exact this
  have hu := two_zpow_pos ((E : ℤ) - 52)
  have hhalf : (2 : ℚ) ^ ((E : ℤ) - 53) = 2 ^ ((E : ℤ) - 52) / 2 := by
    have : (E : ℤ) - 52 = ((E : ℤ) - 53) + 1 := by ring
    rw [this, zpow_add₀ (by norm_num : (2 : ℚ) ≠ 0)]
    norm_num
  have hx1 : (2 : ℚ) ^ (E : ℤ) ≤ h + q := by linarith
  have hx2 : (h : ℚ) + q < 2 ^ ((E : ℤ) + 1) := by
    have := two_zpow_pos ((E : ℤ) - 53)
    linarith
  have hxpos : (0 : ℚ) < h + q := lt_of_lt_of_le (two_zpow_pos _) hx1
  obtain ⟨k, hk⟩ : ∃ k : ℕ, (k : ℤ) = 52 - E := ⟨52 - E, by omega⟩
  have huk : (2 : ℚ) ^ ((E : ℤ) - 52) * 2 ^ k = 1 := by
    rw [← zpow_natCast, hk, ← zpow_add₀ (by norm_num : (2 : ℚ) ≠ 0)]
    simp
  unfold f64Add
  constructor
  · have hr : roundBinary64 ((h : ℚ) + q) = roundPos (h + q) := by
      simp [roundBinary64, hxpos]
    rw [hr]
    have := le_roundPos hxpos (n := h) (j := 0) hlt (by simpa using hq0)
    simpa using this
  · have hN := roundBinary64_le_pred (x := (h : ℚ) + q) E (((h + 1) * 2 ^ k : ℕ) : ℤ) hx1 hx2
      (by
        rw [div_lt_iff₀ hu]
        push_cast
        have e1 : (((h : ℚ) + 1) * 2 ^ k - 1 / 2) * 2 ^ ((E : ℤ) - 52) =
            (h + 1) * (2 ^ ((E : ℤ) - 52) * 2 ^ k) - 2 ^ ((E : ℤ) - 52) / 2 := by ring
        rw [e1, huk, ← hhalf]
        linarith)
    refine lt_of_le_of_lt hN ?_
    push_cast
    have e2 : (((h : ℚ) + 1) * 2 ^ k - 1) * 2 ^ ((E : ℤ) - 52) =
        (h + 1) * (2 ^ ((E : ℤ) - 52) * 2 ^ k) - 2 ^ ((E : ℤ) - 52) := by ring
    rw [e2, huk]
    linarith

/-- The fractional term of `Duration.Hours` is at most `1 - 2501 * 2^-53`,
and at most `1 - 5003 * 2^-53` when two nanoseconds or more are missing to the
next hour. -/
theorem hoursFrac_tight {n : ℕ} (hn : n < 3600000000000) :
    0 ≤ f64Div (f64OfInt (n : ℤ)) 3600000000000 ∧
      f64Div (f64OfInt (n : ℤ)) 3600000000000 ≤ 1 - 2501 * 2 ^ (-53 : ℤ) ∧
      (n + 1 < 3600000000000 →
        f64Div (f64OfInt (n : ℤ)) 3600000000000 ≤ 1 - 5003 * 2 ^ (-53 : ℤ)) := by
  rw [f64OfInt_natCast (lt_trans hn (by norm_num))]
  have hq : (n : ℚ) ≤ 3599999999999 := by exact_mod_cast Nat.le_of_lt_succ hn
  have hn0 : (0 : ℚ) ≤ n := Nat.cast_nonneg n
  have h := roundBinary64_bounds (x := (n : ℚ) / 3600000000000) (by positivity)
    0 9007199254738491 0 (-53) (by norm_num) (by norm_num)
    (by simp; positivity)
    (by rw [div_le_iff₀ (by norm_num)]; norm_num; linarith)
  unfold f64Div
  refine ⟨by simpa using h.1, h.2.trans (le_of_eq (by norm_num)), fun hn2 => ?_⟩
  have hq2 : (n : ℚ) ≤ 3599999999998 := by
    have : n ≤ 3599999999998 := by omega
    exact_mod_cast this
  have h' := roundBinary64_bounds (x := (n : ℚ) / 3600000000000) (by positivity)
    0 9007199254735989 0 (-53) (by norm_num) (by norm_num)
    (by simp; positivity)
    (by rw [div_le_iff₀ (by norm_num)]; norm_num; linarith)
  exact h'.2.trans (le_of_eq (by norm_num))

/-- The fractional term of `Duration.Minutes` is at most `1 - 150119 * 2^-53`. -/
theorem minutesFrac_tight {n : ℕ} (hn : n < 60000000000) :
    0 ≤ f64Div (f64OfInt (n : ℤ)) 60000000000 ∧
      f64Div (f64OfInt (n : ℤ)) 60000000000 ≤ 1 - 150119 * 2 ^ (-53 : ℤ) := by
  rw [f64OfInt_natCast (lt_trans hn (by norm_num))]
  have hq : (n : ℚ) ≤ 59999999999 := by exact_mod_cast Nat.le_of_lt_succ hn
  have hn0 : (0 : ℚ) ≤ n := Nat.cast_nonneg n
  have h := roundBinary64_bounds (x := (n : ℚ) / 60000000000) (by positivity)
    0 9007199254590873 0 (-53) (by norm_num) (by norm_num)
    (by simp; positivity)
    (by rw [div_le_iff₀ (by norm_num)]; norm_num; linarith)
  unfold f64Div
  exact ⟨by simpa using h.1, h.2.trans (le_of_eq (by norm_num))⟩

/-- `Duration.Hours` lies in `[H, H + 1)` for every duration below
4096 h 59 min 59.999999999 s, `H` being the whole hours. -/
theorem durationHours_natCast_wide {d : ℕ} (hd : d < 14749199999999999) :
    ((d / 3600000000000 : ℕ) : ℚ) ≤ durationHours (d : ℤ) ∧
      durationHours (d : ℤ) < (d / 3600000000000 : ℕ) + 1 := by
  unfold durationHours
  have e1 : ((d : ℤ)).tdiv 3600000000000 = ((d / 3600000000000 : ℕ) : ℤ) := by
    rw [Int.ofNat_tdiv]; rfl
  have e2 : ((d : ℤ)).tmod 3600000000000 = ((d % 3600000000000 : ℕ) : ℤ) := by
    rw [Int.ofNat_tmod]; rfl
  rw [e1, e2]
  obtain ⟨f0, f1, f2⟩ := hoursFrac_tight (n := d % 3600000000000) (Nat.mod_lt _ (by norm_num))
  rcases Nat.lt_or_ge (d / 3600000000000) 2048 with hh | hh
  · have hfrac := hoursFrac_bounds (n := d % 3600000000000) (Nat.mod_lt _ (by norm_num))
    exact f64Add_whole_frac (k := 42) (by norm_num; omega) hfrac.1 (by simpa using hfrac.2)
  · rcases Nat.lt_or_ge (d / 3600000000000) 4096 with h4 | h4
    · exact f64Add_whole_frac_wide (E := 11) (by norm_num; omega) (by norm_num; omega)
        (by norm_num) f0 (lt_of_le_of_lt f1 (by norm_num))
    · have hn2 : d % 3600000000000 + 1 < 3600000000000 := by omega
      exact f64Add_whole_frac_wide (E := 12) (by norm_num; omega) (by norm_num; omega)
        (by norm_num) f0 (lt_of_le_of_lt (f2 hn2) (by norm_num))

/-- `Duration.Minutes` lies in `[M, M + 1)` for every duration below
4096 h 59 min 59.999999999 s, `M` being the whole minutes. -/
theorem durationMinutes_natCast_wide {d : ℕ} (hd : d < 14749199999999999) :
    ((d / 60000000000 : ℕ) : ℚ) ≤ durationMinutes (d : ℤ) ∧
      durationMinutes (d : ℤ) < (d / 60000000000 : ℕ) + 1 := by
  unfold durationMinutes
  have e1 : ((d : ℤ)).tdiv 60000000000 = ((d / 60000000000 : ℕ) : ℤ) := by
    rw [Int.ofNat_tdiv]; rfl
  have e2 : ((d : ℤ)).tmod 60000000000 = ((d % 60000000000 : ℕ) : ℤ) := by
    rw [Int.ofNat_tmod]; rfl
  rw [e1, e2]
  obtain ⟨f0, f1⟩ := minutesFrac_tight (n := d % 60000000000) (Nat.mod_lt _ (by norm_num))
  rcases Nat.lt_or_ge (d / 60000000000) 131072 with hm | hm
  · have hfrac := minutesFrac_bounds (n := d % 60000000000) (Nat.mod_lt _ (by norm_num))
    exact f64Add_whole_frac (k := 36) (by norm_num; omega) hfrac.1 (by simpa using hfrac.2)
  · exact f64Add_whole_frac_wide (E := 17) (by norm_num; omega) (by norm_num; omega)
      (by norm_num) f0 (lt_of_le_of_lt f1 (by norm_num))

/-- Both printed fields, for an elapsed time of less than
4096 h 59 min 59.999999999 s in either direction: quotients truncated toward
zero.  At that very duration the hours field is wrong
(`formatAge_rounds_up`). -/
theorem ageFields_of_abs_lt_wide {d : ℤ} (hd : |d| < 14749199999999999) :
    truncToInt (durationHours d) = d.tdiv 3600000000000 ∧
      truncToInt (mathMod (durationMinutes d) 60) = (d.tdiv 60000000000).tmod 60 := by
  have key : ∀ n : ℕ, n < 14749199999999999 →
      truncToInt (durationHours (n : ℤ)) = (n : ℤ).tdiv 3600000000000 ∧
      truncToInt (mathMod (durationMinutes (n : ℤ)) 60) =
        ((n : ℤ).tdiv 60000000000).tmod 60 := by
    intro n hn
    have hH := durationHours_natCast_wide hn
    have hM := durationMinutes_natCast_wide hn
    refine ⟨?_, ?_⟩
    · rw [truncToInt_of_bounds hH.1 hH.2, Int.ofNat_tdiv]; rfl
    · rw [truncToInt_mathMod hM.1 hM.2, Int.ofNat_tmod, Int.ofNat_tdiv]; rfl
  rcases le_total 0 d with h0 | h0
  · obtain ⟨n, rfl⟩ := Int.eq_ofNat_of_zero_le h0
    rw [abs_of_nonneg h0] at hd
    exact key n (by exact_mod_cast hd)
  · obtain ⟨n, hn⟩ := Int.eq_ofNat_of_zero_le (neg_nonneg.mpr h0)
    have hdn : d = -(n : ℤ) := by omega
    rw [abs_of_nonpos h0] at hd
    have := key n (by omega)
    rw [hdn, durationHours_neg, durationMinutes_neg, mathMod_neg, truncToInt_neg,
      truncToInt_neg, Int.neg_tdiv, Int.neg_tdiv, neg_tmod, this.1, this.2]
    exact ⟨rfl, rfl⟩

theorem timeSince_of_abs_lt_wide {now timestamp : ℤ}
    (h : |now - timestamp| < 14749199999999999) :
    timeSince now timestamp = now - timestamp := by
  have := abs_lt.mp h
  unfold timeSince
  rw [min_eq_right (by omega), max_eq_right (by omega)]

/-- `formatAge` for a timestamp less than 4096 h 59 min 59.999999999 s away
from the clock, in either direction. -/
theorem formatAge_of_abs_lt_wide {now timestamp : ℤ}
    (h : |now - timestamp| < 14749199999999999) :
    formatAge now timestamp =
      toString ((now - timestamp).tdiv 3600000000000) ++ "h" ++
        toString (((now - timestamp).tdiv 60000000000).tmod 60) ++ "m" := by
  have hf := ageFields_of_abs_lt_wide h
  unfold formatAge ageHours ageMinutes
  rw [timeSince_of_abs_lt_wide h, hf.1, hf.2]

theorem text_3000h30m :
    toString ((10801800000000000 - 0 : ℤ).tdiv 3600000000000) ++ "h" ++
      toString (((10801800000000000 - 0 : ℤ).tdiv 60000000000).tmod 60) ++ "m" =
      "3000h30m" := by
  decide

/-! ## The claims -/

/-- C1: a pod with at least one container waiting with reason
"CrashLoopBackOff" is given the status "CrashLoopBackOff" by
`getAndWritePods`, whatever its phase, its running containers and its
conditions; the status column of its line is that word. -/
theorem c1_crashLoopBackOff_overrides (pod : Pod)
    (h : ∃ c ∈ pod.containerStatuses, c.state.waiting = some "CrashLoopBackOff") :
    podStatus pod = "CrashLoopBackOff" ∧
      ∀ (now : ℤ) (nsName : String), podLine now nsName pod =
        padRight 13 nsName ++ padRight 43 pod.name ++
          toString (countReady pod.containerStatuses) ++ "/" ++
          toString (countTotal pod.containerStatuses) ++ "   " ++
          padRight 19 "CrashLoopBackOff" ++
          padRight 11 (toString (maxRestartLoop pod.containerStatuses 0)) ++
          padRight 8 (formatAge now pod.creationTimestamp) ++ "\n" := by
  have hs : podStatus pod = "CrashLoopBackOff" := by
    unfold podStatus statusBeforeReadiness
    rw [crashLoopStep_of_mem h]
    unfold readinessStep
    cases isReadyLoop pod.conditions <;> decide
  refine ⟨hs, fun now nsName => ?_⟩
  unfold podLine
  rw [hs]

/-- C1 at a pod in phase "Running" with one running container and one in a
crash loop, and no true ContainersReady condition. -/
theorem c1_crashLoopBackOff_overrides_witness :
    podStatus
      { name := "etcd-0", phase := "Running",
        containerStatuses :=
          [{ ready := true, restartCount := 0, state := { running := true, waiting := none } },
           { ready := false, restartCount := 7,
             state := { running := false, waiting := some "CrashLoopBackOff" } }],
        conditions := [{ type := "ContainersReady", status := "False" }],
        creationTimestamp := 0 } = "CrashLoopBackOff" :=
  (c1_crashLoopBackOff_overrides _
    ⟨{ ready := false, restartCount := 7,
       state := { running := false, waiting := some "CrashLoopBackOff" } },
      by simp, rfl⟩).1

/-- C2: the readiness step of `getAndWritePods`.  When the pod has no
condition of type "ContainersReady" with status "True" and the status after the
running-state, phase and CrashLoopBackOff steps is "Running", the final status
is "Unavailable"; in every other case the final status is the status those
steps computed. -/
theorem c2_readiness_override (pod : Pod) :
    ((¬ ∃ c ∈ pod.conditions, c.type = "ContainersReady" ∧ c.status = "True") →
        statusBeforeReadiness pod = "Running" → podStatus pod = "Unavailable") ∧
      (((∃ c ∈ pod.conditions, c.type = "ContainersReady" ∧ c.status = "True") ∨
          statusBeforeReadiness pod ≠ "Running") →
        podStatus pod = statusBeforeReadiness pod) := by
  unfold podStatus readinessStep
  constructor
  · intro hnot hrun
    have : isReadyLoop pod.conditions = false := by
      rw [← Bool.not_eq_true, isReadyLoop_eq_true_iff]
      exact hnot
    simp [this, hrun]
  · rintro (hready | hne)
    · have : isReadyLoop pod.conditions = true := (isReadyLoop_eq_true_iff _).mpr hready
      simp [this]
    · simp [hne]

/-- C2 at a pod with a running container and a false ContainersReady
condition: it is reported as "Unavailable". -/
theorem c2_readiness_override_witness :
    podStatus
      { name := "coredns", phase := "Running",
        containerStatuses :=
          [{ ready := false, restartCount := 0, state := { running := true, waiting := none } }],
        conditions := [{ type := "ContainersReady", status := "False" }],
        creationTimestamp := 0 } = "Unavailable" :=
  (c2_readiness_override _).1 (by decide) (by decide)

/-- C4: the status `getAndWriteNodes` reports for a node is "Ready" exactly
when the condition list holds a condition of type "Ready" with status "True",
and "NotReady" otherwise; it is the same for every permutation of the
condition list.  The status is the second column of the row of the node, and
the text `getAndWriteNodes` writes is the header followed by these rows. -/
theorem c4_node_status (node : Node) :
    (nodeStatus node = "Ready" ↔
        ∃ c ∈ node.conditions, c.type = "Ready" ∧ c.status = "True") ∧
      ((¬ ∃ c ∈ node.conditions, c.type = "Ready" ∧ c.status = "True") →
        nodeStatus node = "NotReady") ∧
      (∀ conds : List Condition, conds.Perm node.conditions →
        nodeStatus { node with conditions := conds } = nodeStatus node) ∧
      (∀ now : ℤ, nodeLine now node =
        padRight 10 node.name ++
          padRight 9 (if ∃ c ∈ node.conditions, c.type = "Ready" ∧ c.status = "True"
            then "Ready" else "NotReady") ++
          padRight 14 (String.intercalate "," (nodeRoles node)) ++
          padRight 6 (formatAge now node.creationTimestamp) ++
          padRight 7 node.kubeletVersion ++ "\n") ∧
      (∀ (now : ℤ) (conds : List Condition), conds.Perm node.conditions →
        nodeLine now { node with conditions := conds } = nodeLine now node) ∧
      (∀ (now : ℤ) (nodes : List Node), getAndWriteNodes now nodes =
        "\nNAME       STATUS   ROLES         AGE   VERSION\n" ++
          List.foldr (fun (n : Node) (text : String) =>
            padRight 10 n.name ++
              padRight 9 (if ∃ c ∈ n.conditions, c.type = "Ready" ∧ c.status = "True"
                then "Ready" else "NotReady") ++
              padRight 14 (String.intercalate "," (nodeRoles n)) ++
              padRight 6 (formatAge now n.creationTimestamp) ++
              padRight 7 n.kubeletVersion ++ "\n" ++ text) "" nodes) := by
  refine ⟨⟨fun h => ?_, nodeStatus_of_ready⟩, nodeStatus_of_not_ready,
    fun conds hp => nodeStatus_perm hp, fun now => nodeLine_status now node,
    fun now conds hp => ?_, fun now nodes => ?_⟩
  · by_contra hno
    rw [nodeStatus_of_not_ready hno] at h
    exact absurd h (by decide)
  · have hs := nodeStatus_perm hp
    unfold nodeLine nodeRoles
    rw [hs]
  · unfold getAndWriteNodes
    congr 1
    induction nodes with
    | nil => rfl
    | cons n nodes ih =>
      rw [nodeLines, ih, nodeLine_status, List.foldr]

/-- C4 at a node whose Ready condition comes second in its list: the text
`getAndWriteNodes` writes shows it as "Ready". -/
theorem c4_node_status_witness :
    getAndWriteNodes 0 [sampleNode] =
      "\nNAME       STATUS   ROLES         AGE   VERSION\n" ++
        "worker-1  Ready    <none>        0h0m  v1.25.6\n" :=
  ((c4_node_status sampleNode).2.2.2.2.2 0 [sampleNode]).trans sampleNode_report

/-- C5: in the polling loop of `performClusterScaleDownTest`, when the `k`-th
snapshot (`1 ≤ k ≤ 10`) is the first that does not contain "worker-3", exactly
`k` snapshots are taken, exactly `k - 1` sleeps are made by the loop, and the
text appended to the report after the section header is exactly
"success!\n\n", with no failure marker. -/
theorem c5_scale_down_converges (cluster : Cluster) (run : TestRun) (k : Nat)
    (hk1 : 1 ≤ k) (hk10 : k ≤ 10)
    (hbefore : ∀ i < k - 1,
      stringsContains (snapshotText cluster (run.snapshots + i)) "worker-3" = true)
    (hat : stringsContains (snapshotText cluster (run.snapshots + (k - 1))) "worker-3" = false) :
    (performClusterScaleDownTest cluster run).snapshots = run.snapshots + k ∧
      (performClusterScaleDownTest cluster run).sleeps = run.sleeps + (k - 1) ∧
      (performClusterScaleDownTest cluster run).report =
        run.report ++ "集群缩容测试:\n" ++ "success!\n\n" := by
  obtain ⟨h1, h2, h3, h4⟩ := pollLoop_converges workerGone workerGone workerGone_after_write
    cluster (k - 1) 0
    (writeHeader "集群缩容测试:\n" run) (by omega)
    (fun i hi => by
      show (!stringsContains (snapshotText cluster (run.snapshots + i)) "worker-3") = false
      rw [hbefore i hi]; rfl)
    (by
      show (!stringsContains (snapshotText cluster (run.snapshots + (k - 1))) "worker-3") = true
      rw [hat]; rfl)
  unfold performClusterScaleDownTest finalCheck
  rw [if_neg h4]
  refine ⟨?_, h3, h1⟩
  rw [h2]
  show run.snapshots + (k - 1) + 1 = run.snapshots + k
  omega

/-- C5 at a cluster that lists worker-3 in its first two snapshots and not in
the third: three snapshots, two sleeps, "success!". -/
theorem c5_scale_down_converges_witness :
    (performClusterScaleDownTest (sampleCluster 2) freshRun).snapshots = 0 + 3 ∧
      (performClusterScaleDownTest (sampleCluster 2) freshRun).sleeps = 0 + (3 - 1) ∧
      (performClusterScaleDownTest (sampleCluster 2) freshRun).report =
        "" ++ "集群缩容测试:\n" ++ "success!\n\n" :=
  c5_scale_down_converges (sampleCluster 2) freshRun 3 (by decide) (by decide)
    (fun i hi => sampleCluster_lists_worker3 (by
      show 0 + i < 2
      omega))
    (sampleCluster_omits_worker3 (by decide))

/-- C6: with a test that fails on every snapshot, the polling loops of
`performClusterScaleDownTest` and of `performClusterScaleUpTest` end without
the success marker after exactly `300 / 30 = 10` sleeps and exactly 10
snapshots; and whatever the snapshots show, neither loop takes more than
`⌈300 / 30⌉ = 10` snapshots. -/
theorem c6_poll_timeout (cluster : Cluster) (run : TestRun) :
    ((∀ i < 10,
          stringsContains (snapshotText cluster (run.snapshots + i)) "worker-3" = true) →
        (performClusterScaleDownTest cluster run).snapshots = run.snapshots + 300 / 30 ∧
        (performClusterScaleDownTest cluster run).sleeps = run.sleeps + 300 / 30 ∧
        (performClusterScaleDownTest cluster run).report =
          run.report ++ "集群缩容测试:\n" ++ "failed\n\n") ∧
      ((∀ i < 10,
          stringsContains (snapshotText cluster (run.snapshots + i)) "worker-3" = false) →
        (performClusterScaleUpTest cluster run).snapshots = run.snapshots + 300 / 30 ∧
        (performClusterScaleUpTest cluster run).sleeps = run.sleeps + 300 / 30 ∧
        (performClusterScaleUpTest cluster run).report =
          run.report ++ "集群扩容测试:\n" ++ "failed!\n\n") ∧
      (performClusterScaleDownTest cluster run).snapshots ≤ run.snapshots + (300 + 29) / 30 ∧
      (performClusterScaleUpTest cluster run).snapshots ≤ run.snapshots + (300 + 29) / 30 := by
  refine ⟨fun hall => ?_, fun hall => ?_, ?_, ?_⟩
  · obtain ⟨h1, h2, h3, h4, -⟩ := pollLoop_times_out workerGone workerGone
      workerGone_after_write cluster 10 0
      (writeHeader "集群缩容测试:\n" run) (by omega) (fun i hi => by omega)
      (fun i hi => by
        show (!stringsContains (snapshotText cluster (run.snapshots + i)) "worker-3") = false
        rw [hall i hi]; rfl)
    have hempty := h4 (by decide)
    unfold performClusterScaleDownTest finalCheck
    rw [if_pos (by rw [hempty]; rfl)]
    exact ⟨h2, h3, by show _ ++ "failed\n\n" = _; rw [h1]; rfl⟩
  · obtain ⟨h1, h2, h3, h4, -⟩ := pollLoop_times_out workerListed workerListed
      workerListed_after_write cluster 10 0
      (writeHeader "集群扩容测试:\n" run) (by omega) (fun i hi => by omega)
      (fun i hi => by
        show stringsContains (snapshotText cluster (run.snapshots + i)) "worker-3" = false
        exact hall i hi)
    have hempty := h4 (by decide)
    unfold performClusterScaleUpTest finalCheck
    rw [if_pos (by rw [hempty]; rfl)]
    exact ⟨h2, h3, by show _ ++ "failed!\n\n" = _; rw [h1]; rfl⟩
  · have h := (pollLoop_bounded workerGone cluster 10 0
      (writeHeader "集群缩容测试:\n" run) (by omega)).1
    unfold performClusterScaleDownTest finalCheck
    split_ifs <;> exact h
  · have h := (pollLoop_bounded workerListed cluster 10 0
      (writeHeader "集群扩容测试:\n" run) (by omega)).1
    unfold performClusterScaleUpTest finalCheck
    split_ifs <;> exact h

/-- C6 at a cluster that lists worker-3 in every snapshot of the window: the
scale-down loop takes ten snapshots and sleeps ten times. -/
theorem c6_poll_timeout_witness :
    (performClusterScaleDownTest (sampleCluster 10) freshRun).snapshots = 0 + 300 / 30 ∧
      (performClusterScaleDownTest (sampleCluster 10) freshRun).sleeps = 0 + 300 / 30 ∧
      (performClusterScaleDownTest (sampleCluster 10) freshRun).report =
        "" ++ "集群缩容测试:\n" ++ "failed\n\n" :=
  (c6_poll_timeout (sampleCluster 10) freshRun).1
    (fun i hi => sampleCluster_lists_worker3 (by
      show 0 + i < 10
      omega))

/-- C7: in `performClusterScaleDownTest`, when every snapshot of the timeout
window contains "worker-3", the text appended to the report after the section
header is exactly "failed\n\n", and no "success!" is written.  This holds for
every content of the snapshots: the last snapshot is not empty, the marker is
written all the same. -/
theorem c7_scale_down_timeout_report (cluster : Cluster) (run : TestRun)
    (hall : ∀ i < 10,
      stringsContains (snapshotText cluster (run.snapshots + i)) "worker-3" = true) :
    (performClusterScaleDownTest cluster run).report =
        run.report ++ "集群缩容测试:\n" ++ "failed\n\n" ∧
      goLen (snapshotText cluster (run.snapshots + 9)) ≠ 0 := by
  obtain ⟨h1, -, -, h4, -⟩ := pollLoop_times_out workerGone workerGone workerGone_after_write
    cluster 10 0
    (writeHeader "集群缩容测试:\n" run) (by omega) (fun i hi => by omega)
    (fun i hi => by
      show (!stringsContains (snapshotText cluster (run.snapshots + i)) "worker-3") = false
      rw [hall i hi]; rfl)
  have hempty := h4 (by decide)
  constructor
  · unfold performClusterScaleDownTest finalCheck
    rw [if_pos (by rw [hempty]; rfl)]
    show _ ++ "failed\n\n" = _
    rw [h1]; rfl
  · rw [Ne, goLen_eq_zero_iff]
    simp [snapshotText, getAndWriteNodes, String.data_append]

/-- C7 at a cluster that never drops worker-3. -/
theorem c7_scale_down_timeout_report_witness :
    (performClusterScaleDownTest (sampleCluster 10) freshRun).report =
        "" ++ "集群缩容测试:\n" ++ "failed\n\n" ∧
      goLen (snapshotText (sampleCluster 10) (0 + 9)) ≠ 0 :=
  c7_scale_down_timeout_report (sampleCluster 10) freshRun
    (fun i hi => sampleCluster_lists_worker3 (by
      show 0 + i < 10
      omega))

/-- C8, as stated, fails: on the base document "spec:nodes:" the two edits
leave "spec:nodes:\n", which is neither the base document nor the base
document with the annotation edit; and on a base document in the layout of
`kubectl get -o yaml`, where "spec:" and "nodes:" stand on two lines, the
insertion changes nothing and the removal deletes the entry of worker-3 that
the base document held. -/
theorem c8_counterexample :
    modifyBKEClusterConfigDown (modifyBKEClusterConfigUp "spec:nodes:") = "spec:nodes:\n" ∧
      annotateDeletedNode "spec:nodes:" = "spec:nodes:" ∧
      modifyBKEClusterConfigDown (modifyBKEClusterConfigUp "spec:nodes:") ≠
        annotateDeletedNode "spec:nodes:" ∧
      modifyBKEClusterConfigUp ("spec:\n  nodes:\n    " ++ workerEntry ++ "\n") =
        "spec:\n  nodes:\n    " ++ workerEntry ++ "\n" ∧
      modifyBKEClusterConfigDown
          (modifyBKEClusterConfigUp ("spec:\n  nodes:\n    " ++ workerEntry ++ "\n")) =
        "spec:\n  nodes:\n    \n" ∧
      annotateDeletedNode ("spec:\n  nodes:\n    " ++ workerEntry ++ "\n") =
        "spec:\n  nodes:\n    " ++ workerEntry ++ "\n" := by
  decide

/-- C8, amended: for every base document that does not contain the entry of
worker-3, the edit of `modifyBKEClusterConfigUp` followed by the edit of
`modifyBKEClusterConfigDown` yields the base document with a newline inserted
after its first "spec:nodes:" (the base document itself when "spec:nodes:" does
not occur), with the annotation edit of the removal applied to it. -/
theorem c8_add_then_remove (base : String)
    (h : stringsContains base workerEntry = false) :
    modifyBKEClusterConfigDown (modifyBKEClusterConfigUp base) =
      annotateDeletedNode (stringsReplaceOne base "spec:nodes:" "spec:nodes:\n") := by
  have key := roundtrip_lists annotationSet.data "spec:nodes:".data
    (by decide : annotationEmpty.data ≠ []) (by decide) entry_head entry_not_ends_newline
    entry_no_newline_dash apart_entry_annotationSet apart_annotationEmpty_inserted
    apart_annotationEmpty_newline apart_key_annotationEmpty
    (stringsContains_eq_false.mp h)
  have e1 : ("spec:nodes:\n" ++ workerEntry).data =
      "spec:nodes:".data ++ '\n' :: workerEntry.data := by
    rw [String.data_append]
    rfl
  have e2 : ("spec:nodes:\n" : String).data = "spec:nodes:".data ++ ['\n'] := rfl
  have e3 : ("" : String).data = [] := rfl
  unfold modifyBKEClusterConfigDown modifyBKEClusterConfigUp removeEntry annotateDeletedNode
    stringsReplaceOne
  simp only [e1, e2, e3]
  rw [key]
  rfl

/-- C8 at a small document: after both edits a newline stays behind
"spec:nodes:". -/
theorem c8_add_then_remove_witness :
    modifyBKEClusterConfigDown
        (modifyBKEClusterConfigUp "spec:nodes:\n- hostname: master-1\n") =
      annotateDeletedNode
        (stringsReplaceOne "spec:nodes:\n- hostname: master-1\n" "spec:nodes:" "spec:nodes:\n") :=
  c8_add_then_remove "spec:nodes:\n- hostname: master-1\n" (by decide)

/-- C9, as stated, fails: a document whose annotation is set to another
address keeps that value and does not receive "10.50.8.49"; a document without
the annotation does not receive it either; and of two entries of worker-3 the
second one stays. -/
theorem c9_counterexample :
    (stringsContains
        ("bke.bocloud.com/appointment-deleted-nodes: \"10.50.8.48\"\n" ++ workerEntry)
        workerEntry = true ∧
      modifyBKEClusterConfigDown
        ("bke.bocloud.com/appointment-deleted-nodes: \"10.50.8.48\"\n" ++ workerEntry) =
        "bke.bocloud.com/appointment-deleted-nodes: \"10.50.8.48\"\n" ∧
      stringsContains (modifyBKEClusterConfigDown
        ("bke.bocloud.com/appointment-deleted-nodes: \"10.50.8.48\"\n" ++ workerEntry))
        annotationSet = false) ∧
      (stringsContains ("nodes:\n" ++ workerEntry) workerEntry = true ∧
        stringsContains (modifyBKEClusterConfigDown ("nodes:\n" ++ workerEntry))
          annotationSet = false) ∧
      (stringsContains (workerEntry ++ "\n" ++ workerEntry) workerEntry = true ∧
        stringsContains (modifyBKEClusterConfigDown (workerEntry ++ "\n" ++ workerEntry))
          workerEntry = true) := by
  decide

/-- C9, amended: for every document that contains the entry of worker-3, the
edit of `modifyBKEClusterConfigDown` deletes the leftmost occurrence of the
entry (taken after the annotation edit) and nothing else of the entry; when
the document contains the annotation with the empty value, the result contains
the annotation with the value "10.50.8.49"; when it does not (the annotation is
absent or set to another value), the annotation edit changes nothing. -/
theorem c9_remove_node_edit (doc : String)
    (hE : stringsContains doc workerEntry = true) :
    (∃ pre post : String,
        annotateDeletedNode doc = pre ++ workerEntry ++ post ∧
        (∀ pre' post' : String, annotateDeletedNode doc = pre' ++ workerEntry ++ post' →
          pre.length ≤ pre'.length) ∧
        modifyBKEClusterConfigDown doc = pre ++ post) ∧
      (stringsContains doc annotationEmpty = true →
        stringsContains (modifyBKEClusterConfigDown doc) annotationSet = true) ∧
      (stringsContains doc annotationEmpty = false →
        annotateDeletedNode doc = doc ∧ modifyBKEClusterConfigDown doc = removeEntry doc) := by
  obtain ⟨pre, post, h1, h2, h3, h4⟩ := remove_lists annotationSet.data
    (by decide : annotationEmpty.data ≠ []) (by decide : workerEntry.data ≠ [])
    apart_entry_annotationEmpty apart_annotationSet_entry (stringsContains_eq_true.mp hE)
  have hann : annotateDeletedNode doc = String.mk pre ++ workerEntry ++ String.mk post := by
    apply String.ext
    simp only [String.data_append]
    exact h1
  have hdown : modifyBKEClusterConfigDown doc = String.mk pre ++ String.mk post := by
    apply String.ext
    simp only [String.data_append]
    exact h3
  refine ⟨⟨String.mk pre, String.mk post, hann, ?_, hdown⟩, fun hA => ?_, fun hA => ?_⟩
  · intro pre' post' e
    have e' : pre ++ workerEntry.data ++ post = pre'.data ++ workerEntry.data ++ post'.data := by
      have := congrArg String.data (hann.symm.trans e)
      simpa only [String.data_append] using this
    exact first_occurrence_le h2 e'
  · rw [stringsContains_eq_true, hdown]
    simp only [String.data_append]
    exact h4 (stringsContains_eq_true.mp hA)
  · have hno : annotateDeletedNode doc = doc := by
      apply String.ext
      exact replaceFirst_of_absent _ (stringsContains_eq_false.mp hA)
    refine ⟨hno, ?_⟩
    unfold modifyBKEClusterConfigDown
    rw [hno]

/-- C9 at a document with the empty annotation and the entry: the result
holds the annotation with the address. -/
theorem c9_remove_node_edit_witness :
    stringsContains
      (modifyBKEClusterConfigDown
        ("bke.bocloud.com/appointment-deleted-nodes: \"\"\nnodes:\n" ++ workerEntry))
      annotationSet = true :=
  (c9_remove_node_edit
    ("bke.bocloud.com/appointment-deleted-nodes: \"\"\nnodes:\n" ++ workerEntry)
    (by decide)).2.1 (by decide)

/-- C10, as stated, fails: a timestamp two and a half hours later than the
clock is printed as "-2h-30m", not as "0h0m"; and one nanosecond before 4097
hours have passed the hours field reads 4097 while 4096 whole hours have
passed. -/
theorem c10_counterexample :
    formatAge 0 9000000000000 = "-2h-30m" ∧ formatAge 0 9000000000000 ≠ "0h0m" ∧
      formatAge 14749199999999999 0 = "4097h59m" ∧
      (14749199999999999 - 0 : ℤ).tdiv 3600000000000 = 4096 := by
  refine ⟨formatAge_future, ?_, formatAge_rounds_up, by decide⟩
  rw [formatAge_future]
  decide

/-- C10, amended: for every timestamp less than 4096 h 59 min 59.999999999 s
(14749199999999999 ns) away from the clock, before or after it, `formatAge`
returns "<H>h<M>m" with H the whole hours between the two and M the whole
minutes between the two modulo 60, both truncated toward zero, so both
negative or zero for a timestamp later than the clock; it returns "0h0m" when
the two are less than a minute apart.  The bound is the duration of the
counterexample, the first at which the rounding of `Duration.Hours` shows. -/
theorem c10_formatAge (now timestamp : ℤ)
    (h : |now - timestamp| < 14749199999999999) :
    formatAge now timestamp =
        toString ((now - timestamp).tdiv 3600000000000) ++ "h" ++
          toString (((now - timestamp).tdiv 60000000000).tmod 60) ++ "m" ∧
      (|now - timestamp| < 60000000000 → formatAge now timestamp = "0h0m") := by
  refine ⟨formatAge_of_abs_lt_wide h, fun hmin => ?_⟩
  rw [formatAge_of_abs_lt_wide h, tdiv_eq_zero_of_abs_lt hmin,
    tdiv_eq_zero_of_abs_lt (lt_trans hmin (by norm_num))]
  exact text_zero

/-- C10 at a node created 3000 hours and thirty minutes before the clock
reading: its age is printed as "3000h30m". -/
theorem c10_formatAge_witness :
    |(10801800000000000 : ℤ) - 0| < 14749199999999999 ∧
      formatAge 10801800000000000 0 = "3000h30m" :=
  ⟨by norm_num [abs_lt],
    (c10_formatAge 10801800000000000 0 (by norm_num [abs_lt])).1.trans text_3000h30m⟩

/-- C11: monotonicity of `formatAge` fails on the code.  With the clock at
4097 hours and 0.999999999 seconds, the timestamp 0 is older than the
timestamp at one second, yet it is printed as "4097h0m" and the younger one as
"4097h59m": the pair (hours, minutes) of the older timestamp is smaller. -/
theorem c11_formatAge_not_monotone :
    (0 : ℤ) < 1000000000 ∧ (1000000000 : ℤ) ≤ 14749200999999999 ∧
      formatAge 14749200999999999 0 = "4097h0m" ∧
      formatAge 14749200999999999 1000000000 = "4097h59m" ∧
      ¬ (ageHours 14749200999999999 1000000000 < ageHours 14749200999999999 0 ∨
          (ageHours 14749200999999999 1000000000 = ageHours 14749200999999999 0 ∧
            ageMinutes 14749200999999999 1000000000 ≤ ageMinutes 14749200999999999 0)) := by
  refine ⟨by decide, by decide, formatAge_older, formatAge_younger, ?_⟩
  rw [ageFields_older.1, ageFields_older.2, ageFields_younger.1, ageFields_younger.2]
  decide

/-- C12: `writeComponentInstallationCheck` writes, after its title, the marker
"success!" exactly when no line of the log contains the pod-table header.
When a line contains the header, it writes the first such line, then every
later line that contains neither "Running" nor "Succeeded", the empty ones
among them, and the marker is not written, whatever the later lines are. -/
theorem c12_installation_check (logsContent : String) :
    ((∀ l ∈ stringsSplitLines logsContent, stringsContains l podTableHeader = false) →
        writeComponentInstallationCheck logsContent = "组件安装测试:\n" ++ "success!\n") ∧
      (∀ (pre : List String) (header : String) (post : List String),
        stringsSplitLines logsContent = pre ++ header :: post →
        (∀ l ∈ pre, stringsContains l podTableHeader = false) →
        stringsContains header podTableHeader = true →
        writeComponentInstallationCheck logsContent =
          "组件安装测试:\n" ++ (header ++ "\n") ++ joinLines (post.filter copiedLine)) ∧
      (writeComponentInstallationCheck logsContent = "组件安装测试:\n" ++ "success!\n" ↔
        ∀ l ∈ stringsSplitLines logsContent, stringsContains l podTableHeader = false) := by
  have hnone :
      (∀ l ∈ stringsSplitLines logsContent, stringsContains l podTableHeader = false) →
      writeComponentInstallationCheck logsContent = "组件安装测试:\n" ++ "success!\n" := by
    intro h
    unfold writeComponentInstallationCheck
    rw [installationLoop_no_header h]
    rfl
  have hsome : ∀ (pre : List String) (header : String) (post : List String),
      stringsSplitLines logsContent = pre ++ header :: post →
      (∀ l ∈ pre, stringsContains l podTableHeader = false) →
      stringsContains header podTableHeader = true →
      writeComponentInstallationCheck logsContent =
        "组件安装测试:\n" ++ (header ++ "\n") ++ joinLines (post.filter copiedLine) := by
    intro pre header post e hpre hh
    unfold writeComponentInstallationCheck
    rw [e, installationLoop_header hpre hh]
    rfl
  refine ⟨hnone, hsome, fun hw => ?_, hnone⟩
  by_contra hnot
  push_neg at hnot
  obtain ⟨l, hl, hc⟩ := hnot
  have hc' : stringsContains l podTableHeader = true := by simpa using hc
  obtain ⟨pre, header, post, e, hpre, hh⟩ := exists_first_header ⟨l, hl, hc'⟩
  rw [hsome pre header post e hpre hh, String.append_assoc] at hw
  have hdata := congrArg String.data hw
  simp only [String.data_append] at hdata
  have hcancel := List.append_cancel_left hdata
  apply header_line_ne_marker (joinLines (post.filter copiedLine)) hh
  apply String.ext
  simpa only [String.data_append] using hcancel

/-- C12 at the log that `getAndWritePods` prints for one running pod: the
header and the empty last line are copied, "success!" is not written. -/
theorem c12_installation_check_witness :
    writeComponentInstallationCheck (getAndWritePods 0 samplePods) =
      "组件安装测试:\n" ++ sampleHeaderLine ++ "\n" ++ "\n" :=
  ((c12_installation_check (getAndWritePods 0 samplePods)).2.1 [] _ _ samplePods_lines
    (by simp) (by decide)).trans samplePods_report

end BkeTest
